import Mathlib

/-!
Verification of the monster turn engine (`src/monster/melee2.c`) against its
natural-language specification.  Each C function relevant to a claim is given
a shallow embedding: pure Lean functions over `Nat`/`Int`, with explicit
16-bit / 32-bit truncation where the C source declares `u16b` / `u32b`
variables.  External collaborators (RNG, cave predicates, player mutators)
become explicit arguments; each call to a random primitive becomes one
explicit oracle argument, and probability statements are settled by counting
outcomes over the primitive's uniform range.
-/

namespace Melee2

/-- Modelled from the spec: compatibility constant `MAX_SIGHT` (defined in a
header outside `src/`); the spec lists it among the constants to preserve. -/
def MAX_SIGHT : Nat := 20

/-- Modelled from the spec: compatibility constant `BREAK_GLYPH` (defined in a
header outside `src/`), the denominator of the glyph-breaking roll. -/
def BREAK_GLYPH : Nat := 550

/-- Modelled from the spec: compatibility constant `MON_MULT_ADJ` (defined in
a header outside `src/`), the crowding divisor of the breeding roll. -/
def MON_MULT_ADJ : Nat := 8

/-- Modelled from the spec: compatibility constant `MAX_REPRO` (defined in a
header outside `src/`), the per-level cap on breeding monsters. -/
def MAX_REPRO : Nat := 100

/-- Modelled from the spec: compatibility constant `MONSTER_FLOW_DEPTH`
(defined in a header outside `src/`), the flow-cost cut-off. -/
def MONSTER_FLOW_DEPTH : Nat := 32

/-- Modelled from the spec: compatibility constant `MAX_PVAL` (defined in a
header outside `src/`), the largest value one object `pval` can hold. -/
def MAX_PVAL : Nat := 32767

/-- Truncation to the C type `u16b`. -/
def u16 (n : Nat) : Nat := n % 65536

/-- Truncation to the C type `u32b`. -/
def u32 (n : Nat) : Nat := n % 4294967296

/-!
## `mon_will_run` (melee2.c lines 399-442)

Inputs are the fields the C function reads: `m_ptr->cdis`,
`m_ptr->m_timed[MON_TMD_FEAR]`, `m_ptr->midx`, `m_ptr->race->level`,
`p_ptr->lev`, `p_ptr->chp`, `p_ptr->mhp`, `m_ptr->hp`, `m_ptr->maxhp`.
The locals `p_lev .. m_mhp` are `u16b` and `p_val`, `m_val` are `u32b` in the
source, so the embedding truncates accordingly; the two products of the final
comparison are likewise 32-bit.
-/

def monWillRun (cdis fearTimer midx rlev plev pchp pmhp mchp mmhp : Nat) : Bool :=
  if MAX_SIGHT + 5 < cdis then false
  else if 0 < fearTimer then true
  else
    if cdis ≤ 5 then false
    else
      let p_lev := u16 plev
      let m_lev := u16 (rlev + (midx &&& 8) + 25)
      if p_lev + 4 < m_lev then false
      else if m_lev + 4 ≤ p_lev then true
      else
        let p_chp := u16 pchp
        let p_mhp := u16 pmhp
        let m_chp := u16 mchp
        let m_mhp := u16 mmhp
        let p_val := u32 (p_lev * p_mhp + 4 * p_chp)
        let m_val := u32 (m_lev * m_mhp + 4 * m_chp)
        decide (u32 (m_val * p_mhp) < u32 (p_val * m_mhp))

/-- The run/stay decision exactly as claim C1 words it: the same three early
distance/fear tests, then the cross-multiplied power comparison in exact
(unbounded) arithmetic, with no further branches. -/
def monWillRunClaim (cdis fearTimer midx rlev plev pchp pmhp mchp mmhp : Nat) : Bool :=
  if MAX_SIGHT + 5 < cdis then false
  else if 0 < fearTimer then true
  else
    if cdis ≤ 5 then false
    else
      let m_lev := rlev + (midx &&& 8) + 25
      decide ((m_lev * mmhp + 4 * mchp) * pmhp < (plev * pmhp + 4 * pchp) * mmhp)

lemma willRunStrong (m_lev plev pchp pmhp mchp mmhp : Nat)
    (h : plev + 4 < m_lev) (hpcm : pchp ≤ pmhp) :
    (plev * pmhp + 4 * pchp) * mmhp ≤ (m_lev * mmhp + 4 * mchp) * pmhp := by
  zify at *
  nlinarith [mul_le_mul_of_nonneg_right hpcm (by positivity : (0:ℤ) ≤ mmhp),
    mul_nonneg (mul_nonneg (by positivity : (0:ℤ) ≤ pmhp) (by positivity : (0:ℤ) ≤ mmhp)) (by positivity : (0:ℤ) ≤ 1),
    mul_nonneg (by positivity : (0:ℤ) ≤ mchp) (by positivity : (0:ℤ) ≤ pmhp)]

lemma willRunWeak (m_lev plev pchp pmhp mchp mmhp : Nat)
    (h : m_lev + 4 ≤ plev) (hpc : 0 < pchp) (hmcm : mchp ≤ mmhp) (hpm : 0 < pmhp)
    (hmm : 0 < mmhp) :
    (m_lev * mmhp + 4 * mchp) * pmhp < (plev * pmhp + 4 * pchp) * mmhp := by
  zify at *
  nlinarith [mul_le_mul_of_nonneg_right hmcm (by positivity : (0:ℤ) ≤ pmhp),
    mul_pos (mul_pos (show (0:ℤ) < pmhp by exact_mod_cast hpm) (show (0:ℤ) < mmhp by exact_mod_cast hmm)) (by norm_num : (0:ℤ) < 4),
    mul_pos (show (0:ℤ) < pchp by exact_mod_cast hpc) (show (0:ℤ) < mmhp by exact_mod_cast hmm)]

/-- Claim C1, counterexample.  The claim asserts that past the three early
distance/fear tests the result is true exactly when
`p_val * m_mhp > m_val * p_mhp` in exact arithmetic.  The source computes both
products in `u32b` (32-bit wrapping) arithmetic, and at this input — which
satisfies the claim's hypotheses `0 < hp ≤ maxhp` for both sides — the wrapped
products compare the other way: the code returns true while the claimed
comparison says false. -/
theorem mon_will_run_claim_cx :
    monWillRun 10 0 0 9 32 10740 28100 18460 26580 = true ∧
      monWillRunClaim 10 0 0 9 32 10740 28100 18460 26580 = false := by
  constructor <;> decide

/-- Claim C1, amended.  For every monster with `0 < hp ≤ maxhp` for both the
monster and the player, and with the fields additionally small enough that the
32-bit products cannot wrap (race level at most 255, player level at most 300,
both max hit points at most 2000 — always true of real game values),
`mon_will_run` returns false if `cdis > MAX_SIGHT+5`, otherwise true if the
FEAR timer is positive, otherwise false if `cdis ≤ 5`, and otherwise returns
true if and only if `p_val*m_mhp > m_val*p_mhp` with
`m_lev = race.level + (midx & 8) + 25`, `p_val = p_lev*p_mhp + 4*p_chp` and
`m_val = m_lev*m_mhp + 4*m_chp`; in particular the two early-exit branches for
`m_lev > p_lev+4` and `m_lev+4 ≤ p_lev` agree with the cross-multiplied
comparison. -/
theorem mon_will_run_matches_claim
    (cdis fearTimer midx rlev plev pchp pmhp mchp mmhp : Nat)
    (hr : rlev ≤ 255) (hpl : plev ≤ 300)
    (hpm : pmhp ≤ 2000) (hmm : mmhp ≤ 2000)
    (hpc : 0 < pchp) (hpcm : pchp ≤ pmhp)
    (hmc : 0 < mchp) (hmcm : mchp ≤ mmhp) :
    monWillRun cdis fearTimer midx rlev plev pchp pmhp mchp mmhp =
      monWillRunClaim cdis fearTimer midx rlev plev pchp pmhp mchp mmhp := by
  have hand : midx &&& 8 ≤ 8 := Nat.and_le_right
  have hml : rlev + (midx &&& 8) + 25 ≤ 288 := by omega
  have hpc2 : pchp ≤ 2000 := le_trans hpcm hpm
  have hmc2 : mchp ≤ 2000 := le_trans hmcm hmm
  have e1 : u16 plev = plev := Nat.mod_eq_of_lt (by omega)
  have e2 : u16 (rlev + (midx &&& 8) + 25) = rlev + (midx &&& 8) + 25 :=
    Nat.mod_eq_of_lt (by omega)
  have e3 : u16 pchp = pchp := Nat.mod_eq_of_lt (by omega)
  have e4 : u16 pmhp = pmhp := Nat.mod_eq_of_lt (by omega)
  have e5 : u16 mchp = mchp := Nat.mod_eq_of_lt (by omega)
  have e6 : u16 mmhp = mmhp := Nat.mod_eq_of_lt (by omega)
  have hpv : plev * pmhp + 4 * pchp ≤ 608000 := by
    have := Nat.mul_le_mul hpl hpm
    omega
  have hmv : (rlev + (midx &&& 8) + 25) * mmhp + 4 * mchp ≤ 584000 := by
    have := Nat.mul_le_mul hml hmm
    omega
  have e7 : u32 (plev * pmhp + 4 * pchp) = plev * pmhp + 4 * pchp :=
    Nat.mod_eq_of_lt (by omega)
  have e8 : u32 ((rlev + (midx &&& 8) + 25) * mmhp + 4 * mchp) =
      (rlev + (midx &&& 8) + 25) * mmhp + 4 * mchp :=
    Nat.mod_eq_of_lt (by omega)
  have e9 : u32 ((plev * pmhp + 4 * pchp) * mmhp) = (plev * pmhp + 4 * pchp) * mmhp :=
    Nat.mod_eq_of_lt (lt_of_le_of_lt (Nat.mul_le_mul hpv hmm) (by norm_num))
  have e10 : u32 (((rlev + (midx &&& 8) + 25) * mmhp + 4 * mchp) * pmhp) =
      ((rlev + (midx &&& 8) + 25) * mmhp + 4 * mchp) * pmhp :=
    Nat.mod_eq_of_lt (lt_of_le_of_lt (Nat.mul_le_mul hmv hpm) (by norm_num))
  simp only [monWillRun, monWillRunClaim, e1, e2, e3, e4, e5, e6]
  rw [e7, e8, e9, e10]
  by_cases h1 : MAX_SIGHT + 5 < cdis
  · simp [h1]
  by_cases h2 : 0 < fearTimer
  · simp [h1, h2]
  by_cases h3 : cdis ≤ 5
  · simp [h1, h2, h3]
  simp only [if_neg h1, if_neg h2, if_pos, if_neg h3]
  by_cases h4 : plev + 4 < rlev + (midx &&& 8) + 25
  · rw [if_pos h4]
    have := willRunStrong (rlev + (midx &&& 8) + 25) plev pchp pmhp mchp mmhp h4 hpcm
    simp [Nat.not_lt.mpr this]
  · rw [if_neg h4]
    by_cases h5 : rlev + (midx &&& 8) + 25 + 4 ≤ plev
    · rw [if_pos h5]
      have := willRunWeak (rlev + (midx &&& 8) + 25) plev pchp pmhp mchp mmhp h5 hpc hmcm
        (by omega) (by omega)
      simp [this]
    · rw [if_neg h5]

/-- Claim C1, witness: the amended equivalence applied at a concrete monster
(race level 30, index 3, 50/80 hp, distance 10) against a level-40 player at
100/150 hp. -/
theorem mon_will_run_matches_claim_wit :
    monWillRun 10 0 3 30 40 100 150 50 80 =
      monWillRunClaim 10 0 3 30 40 100 150 50 80 :=
  mon_will_run_matches_claim 10 0 3 30 40 100 150 50 80
    (by decide) (by decide) (by decide) (by decide)
    (by decide) (by decide) (by decide) (by decide)

/-!
## `make_attack_spell` (melee2.c lines 220-382) and its helpers

The spell-set is represented as the ascending list of set bits of the
`bitflag f[RSF_SIZE]` working array.  The concrete spell numbering, the class
predicates (`RST_BOLT`, `RST_SUMMON`, the desperation mask) and the external
`unset_spells` table live outside `src/`, so they are passed in as the
`SpellIds` record and an `unsetFn` argument.  Each RNG call becomes one
explicit oracle argument `r`, consumed as `r % n` for a `randint0(n)` call.
-/

/-- Modelled from the spec: compatibility constant `MAX_RANGE` (defined in a
header outside `src/`), the maximum spell-casting distance. -/
def MAX_RANGE : Nat := 20

/-- Spell numbering data defined outside `src/` (mon-spell.h): the ids of the
four specifically-pruned spells and the class-membership predicates. -/
structure SpellIds where
  heal : Nat
  haste : Nat
  teleTo : Nat
  drainMana : Nat
  isBolt : Nat → Bool
  isSummon : Nat → Bool
  isDesperation : Nat → Bool

/-- Embedding of `remove_bad_spells` (melee2.c lines 66-110).  `knownEmpty`
says whether `m_ptr->known_pflags` is empty, `smartImmMana` whether
`m_ptr->smart` has `SM_IMM_MANA`, and `unsetFn` stands for the external
`unset_spells` table applied to the working set. -/
def removeBadSpells (ids : SpellIds) (stupid smartFlag : Bool)
    (hp maxhp fastTimer cdis : Nat) (aiLearn : Bool) (forgetRoll : Nat)
    (knownEmpty : Bool) (smartImmMana : Bool) (unsetFn : List Nat → List Nat)
    (drainRoll : Nat) (f : List Nat) : List Nat :=
  if stupid then f
  else
    let f2 := if maxhp ≤ hp then f.filter (· ≠ ids.heal) else f
    let f3 := if 10 < fastTimer then f2.filter (· ≠ ids.haste) else f2
    let f4 := if cdis = 1 then f3.filter (· ≠ ids.teleTo) else f3
    let knownAfter := if aiLearn ∧ forgetRoll % 100 = 0 then true else knownEmpty
    let f5 := if aiLearn ∧ knownAfter = false then unsetFn f4 else f4
    if aiLearn ∧ smartImmMana ∧
        drainRoll % 100 < 50 * (if smartFlag then 2 else 1) then
      f5.filter (· ≠ ids.drainMana)
    else f5

/-- Embedding of `choose_attack_spell` (melee2.c lines 159-177): uniform pick
from the surviving set, 0 (no spell) on an empty set. -/
def chooseAttackSpell (f : List Nat) (roll : Nat) : Nat :=
  if f.length = 0 then 0 else f.getD (roll % f.length) 0

/-- Embedding of the spell fail rate computed at melee2.c lines 328-335, with
the effective level `rlev = max(level, 1)` extracted at line 273. -/
def failRate (stupid : Bool) (level fearTimer : Nat) : Int :=
  let rlev : Int := max (level : Int) 1
  let base : Int := 25 - (rlev + 3) / 4
  let withFear := if fearTimer ≠ 0 then base + 20 else base
  if stupid then 0 else withFear

/-- The fail rate exactly as claim C4 words it: `25 - (level+3)/4`, +20 under
fear, 0 for STUPID races, with no lower clamp on the level. -/
def failRateClaim (stupid : Bool) (level fearTimer : Nat) : Int :=
  let base : Int := 25 - ((level : Int) + 3) / 4
  let withFear := if fearTimer ≠ 0 then base + 20 else base
  if stupid then 0 else withFear

/-- The spell-set filtering pipeline of `make_attack_spell` (lines 276-304):
the desperation override, `remove_bad_spells`, then the bolt and summon
worth-it checks for non-stupid races.  `cleanShot` is the value of the
external `clean_shot` probe and `summonPoss` the value of the
`summon_possible` call. -/
def spellPipeline (ids : SpellIds) (smartFlag stupid : Bool) (hp maxhp : Nat)
    (despRoll : Nat) (fastTimer cdis : Nat) (aiLearn : Bool) (forgetRoll : Nat)
    (knownEmpty : Bool) (smartImmMana : Bool) (unsetFn : List Nat → List Nat)
    (drainRoll : Nat) (cleanShot summonPoss : Bool)
    (raceSpells : List Nat) : List Nat :=
  let f1 := if smartFlag ∧ hp < maxhp / 10 ∧ despRoll % 100 < 50
            then raceSpells.filter ids.isDesperation else raceSpells
  let f2 := removeBadSpells ids stupid smartFlag hp maxhp fastTimer cdis
              aiLearn forgetRoll knownEmpty smartImmMana unsetFn drainRoll f1
  let f3 := if stupid = false ∧ (f2.any ids.isBolt ∧ cleanShot = false)
            then f2.filter (fun s => ids.isBolt s = false) else f2
  if stupid = false ∧ summonPoss = false
  then f3.filter (fun s => ids.isSummon s = false) else f3

/-- Observable outcome of one `make_attack_spell` call: the C return value,
whether the "tries to cast a spell, but fails" message fired, which spell
effect (if any) was performed (the inline HASTE case and the delegated
`do_mon_spell` case both count), and which spell was chosen. -/
structure CastResult where
  ret : Bool
  failMsg : Bool
  cast : Option Nat
  chosen : Nat
deriving DecidableEq

/-- Embedding of `make_attack_spell` (melee2.c lines 220-382): the gate
sequence (leaving, confusion, NICE, cast chance, range, projectability), the
filtering pipeline, spell choice, and the failure roll. -/
def makeAttackSpell (ids : SpellIds) (leaving : Bool) (confTimer : Nat)
    (nice : Bool) (freqInnate freqSpell castRoll cdis : Nat)
    (projectable : Bool) (level : Nat) (smartFlag stupid : Bool)
    (hp maxhp despRoll fastTimer : Nat) (aiLearn : Bool) (forgetRoll : Nat)
    (knownEmpty : Bool) (smartImmMana : Bool) (unsetFn : List Nat → List Nat)
    (drainRoll : Nat) (cleanShot summonPoss : Bool) (raceSpells : List Nat)
    (chooseRoll minNoninnate fearTimer failRoll : Nat) : CastResult :=
  if leaving then ⟨false, false, none, 0⟩
  else if confTimer ≠ 0 then ⟨false, false, none, 0⟩
  else if nice then ⟨false, false, none, 0⟩
  else
    let chance := (freqInnate + freqSpell) / 2
    if chance = 0 then ⟨false, false, none, 0⟩
    else if chance ≤ castRoll % 100 then ⟨false, false, none, 0⟩
    else if MAX_RANGE < cdis then ⟨false, false, none, 0⟩
    else if projectable = false then ⟨false, false, none, 0⟩
    else
      let f := spellPipeline ids smartFlag stupid hp maxhp despRoll fastTimer
                 cdis aiLearn forgetRoll knownEmpty smartImmMana unsetFn
                 drainRoll cleanShot summonPoss raceSpells
      if f.isEmpty then ⟨false, false, none, 0⟩
      else
        let thrown := chooseAttackSpell f chooseRoll
        if thrown = 0 then ⟨false, false, none, 0⟩
        else if minNoninnate ≤ thrown ∧
            (failRoll % 100 : Int) < failRate stupid level fearTimer then
          ⟨true, true, none, thrown⟩
        else ⟨true, false, some thrown, thrown⟩

/-- Claim C4, counterexample.  The claim states the fail rate is
`25 - (level+3)/4`; the source first clamps the level to at least 1
(`rlev = (level >= 1) ? level : 1`, line 273), so for a level-0 race the code
uses 24 where the claimed formula gives 25. -/
theorem fail_rate_claim_cx :
    failRate false 0 0 ≠ failRateClaim false 0 0 ∧
      failRate false 0 0 = 24 ∧ failRateClaim false 0 0 = 25 := by
  refine ⟨by decide, by decide, by decide⟩

/-- Claim C4, amended.  In `make_attack_spell`, with the level clamped below
at 1 (`rlev = max(level,1)`), the spell fail rate equals `25 - (rlev+3)/4`,
increased by 20 when the monster's FEAR timer is positive and forced to 0 for
STUPID races — for `level ≥ 1` this is exactly the claimed `25 - (level+3)/4`
formula (part 1); a chosen spell numbered below `MIN_NONINNATE_SPELL` never
fails: the call performs the spell effect with no failure message (part 3);
and when the failure roll triggers for a non-innate spell, the function emits
the failure message, applies no spell effect, and still returns true
(part 2). -/
theorem make_attack_spell_fail_c4
    (ids : SpellIds) (leaving : Bool) (confTimer : Nat)
    (nice : Bool) (freqInnate freqSpell castRoll cdis : Nat)
    (projectable : Bool) (level : Nat) (smartFlag stupid : Bool)
    (hp maxhp despRoll fastTimer : Nat) (aiLearn : Bool) (forgetRoll : Nat)
    (knownEmpty : Bool) (smartImmMana : Bool) (unsetFn : List Nat → List Nat)
    (drainRoll : Nat) (cleanShot summonPoss : Bool) (raceSpells : List Nat)
    (chooseRoll minNoninnate fearTimer failRoll : Nat)
    (hleave : leaving = false) (hconf : confTimer = 0) (hnice : nice = false)
    (hch : (freqInnate + freqSpell) / 2 ≠ 0)
    (hroll : castRoll % 100 < (freqInnate + freqSpell) / 2)
    (hrange : cdis ≤ MAX_RANGE) (hproj : projectable = true)
    (hne : (spellPipeline ids smartFlag stupid hp maxhp despRoll fastTimer
              cdis aiLearn forgetRoll knownEmpty smartImmMana unsetFn
              drainRoll cleanShot summonPoss raceSpells).isEmpty = false)
    (hth : chooseAttackSpell (spellPipeline ids smartFlag stupid hp maxhp
              despRoll fastTimer cdis aiLearn forgetRoll knownEmpty
              smartImmMana unsetFn drainRoll cleanShot summonPoss raceSpells)
              chooseRoll ≠ 0) :
    (1 ≤ level →
      failRate stupid level fearTimer = failRateClaim stupid level fearTimer)
    ∧ (minNoninnate ≤ chooseAttackSpell (spellPipeline ids smartFlag stupid hp
          maxhp despRoll fastTimer cdis aiLearn forgetRoll knownEmpty
          smartImmMana unsetFn drainRoll cleanShot summonPoss raceSpells)
          chooseRoll →
        (failRoll % 100 : Int) < failRate stupid level fearTimer →
        makeAttackSpell ids leaving confTimer nice freqInnate freqSpell
          castRoll cdis projectable level smartFlag stupid hp maxhp despRoll
          fastTimer aiLearn forgetRoll knownEmpty smartImmMana unsetFn
          drainRoll cleanShot summonPoss raceSpells chooseRoll minNoninnate
          fearTimer failRoll =
          ⟨true, true, none, chooseAttackSpell (spellPipeline ids smartFlag
            stupid hp maxhp despRoll fastTimer cdis aiLearn forgetRoll
            knownEmpty smartImmMana unsetFn drainRoll cleanShot summonPoss
            raceSpells) chooseRoll⟩)
    ∧ (chooseAttackSpell (spellPipeline ids smartFlag stupid hp maxhp despRoll
          fastTimer cdis aiLearn forgetRoll knownEmpty smartImmMana unsetFn
          drainRoll cleanShot summonPoss raceSpells) chooseRoll
          < minNoninnate →
        makeAttackSpell ids leaving confTimer nice freqInnate freqSpell
          castRoll cdis projectable level smartFlag stupid hp maxhp despRoll
          fastTimer aiLearn forgetRoll knownEmpty smartImmMana unsetFn
          drainRoll cleanShot summonPoss raceSpells chooseRoll minNoninnate
          fearTimer failRoll =
          ⟨true, false, some (chooseAttackSpell (spellPipeline ids smartFlag
            stupid hp maxhp despRoll fastTimer cdis aiLearn forgetRoll
            knownEmpty smartImmMana unsetFn drainRoll cleanShot summonPoss
            raceSpells) chooseRoll),
            chooseAttackSpell (spellPipeline ids smartFlag stupid hp maxhp
              despRoll fastTimer cdis aiLearn forgetRoll knownEmpty
              smartImmMana unsetFn drainRoll cleanShot summonPoss raceSpells)
              chooseRoll⟩) := by
  subst hleave; subst hconf; subst hnice; subst hproj
  refine ⟨?_, ?_, ?_⟩
  · intro hlev
    have hm : max (level : Int) 1 = (level : Int) := by
      have : (1 : Int) ≤ (level : Int) := by exact_mod_cast hlev
      omega
    simp [failRate, failRateClaim, hm]
  · intro hmin hfail
    simp [makeAttackSpell, hch, Nat.not_le.mpr hroll, Nat.not_lt.mpr hrange,
      hne, hth, hmin, hfail]
  · intro hmin
    simp [makeAttackSpell, hch, Nat.not_le.mpr hroll, Nat.not_lt.mpr hrange,
      hne, hth, Nat.not_le.mpr hmin]


/-- Claim C4, witness: the amended theorem applied to a level-10 caster with
one non-innate spell (id 7, boundary 5) whose failure roll of 3 is below the
fail rate of 22: the call returns true with the failure message and no spell
effect. -/
theorem make_attack_spell_fail_c4_wit :
    makeAttackSpell ⟨1, 2, 3, 4, fun _ => false, fun _ => false, fun _ => true⟩
        false 0 false 4 4 2 5 true 10 false false 10 10 0 0 false 0 true false
        (fun l => l) 0 true true [7] 0 5 0 3 = ⟨true, true, none, 7⟩ ∧
      failRate false 10 0 = failRateClaim false 10 0 := by
  have h := make_attack_spell_fail_c4
    ⟨1, 2, 3, 4, fun _ => false, fun _ => false, fun _ => true⟩
    false 0 false 4 4 2 5 true 10 false false 10 10 0 0 false 0 true false
    (fun l => l) 0 true true [7] 0 5 0 3
    rfl rfl rfl (by decide) (by decide) (by decide) rfl (by rfl) (by decide)
  exact ⟨h.2.1 (by decide) (by decide), h.1 (by decide)⟩

/-!
## `summon_possible` (melee2.c lines 117-144)

The cave probes `square_in_bounds`, `square_iswarded`, `square_isempty` and
`los` are services defined outside `src/`, passed here as predicate
arguments.  The `distance()` metric is likewise defined outside `src/`; the
spec describes the footprint as the cells "within Chebyshev distance 2", so
the metric is modelled from the spec as the Chebyshev distance.
-/

/-- Modelled from the spec: the `distance()` metric of the cave module
(defined outside `src/`), described by the spec as Chebyshev distance. -/
def distanceSpec (y1 x1 y x : Int) : Nat :=
  max (y - y1).natAbs (x - x1).natAbs

/-- Embedding of `summon_possible` (melee2.c lines 117-144): scan the 5 by 5
box around `(y1,x1)`, skipping out-of-bounds cells, cells farther than 2 and
warded cells, and answer true on the first empty cell in line of sight. -/
def summonPossible (inBounds warded empt : Int → Int → Bool)
    (losP : Int → Int → Int → Int → Bool) (y1 x1 : Int) : Bool :=
  ([-2, -1, 0, 1, 2] : List Int).any fun dy =>
    ([-2, -1, 0, 1, 2] : List Int).any fun dx =>
      let y := y1 + dy
      let x := x1 + dx
      inBounds y x && decide (distanceSpec y1 x1 y x ≤ 2) &&
        !warded y x && (empt y x && losP y1 x1 y x)

/-- Claim C6: `summon_possible(y1,x1)` returns true iff some cell within
Chebyshev distance 2 of `(y1,x1)` is in bounds, not warded, an empty floor
grid and in line of sight from `(y1,x1)`; and for a non-STUPID monster, when
no such cell exists, every SUMMON-class spell is removed from the filtered
spell set built by `make_attack_spell`. -/
theorem summon_possible_c6 (inBounds warded empt : Int → Int → Bool)
    (losP : Int → Int → Int → Int → Bool) (y1 x1 : Int)
    (ids : SpellIds) (smartFlag : Bool) (hp maxhp despRoll fastTimer cdis : Nat)
    (aiLearn : Bool) (forgetRoll : Nat) (knownEmpty : Bool)
    (smartImmMana : Bool) (unsetFn : List Nat → List Nat) (drainRoll : Nat)
    (cleanShot : Bool) (raceSpells : List Nat) :
    (summonPossible inBounds warded empt losP y1 x1 = true ↔
      ∃ y x : Int, distanceSpec y1 x1 y x ≤ 2 ∧ inBounds y x = true ∧
        warded y x = false ∧ empt y x = true ∧ losP y1 x1 y x = true) ∧
    ((¬ ∃ y x : Int, distanceSpec y1 x1 y x ≤ 2 ∧ inBounds y x = true ∧
        warded y x = false ∧ empt y x = true ∧ losP y1 x1 y x = true) →
      ∀ s ∈ spellPipeline ids smartFlag false hp maxhp despRoll fastTimer cdis
          aiLearn forgetRoll knownEmpty smartImmMana unsetFn drainRoll
          cleanShot (summonPossible inBounds warded empt losP y1 x1)
          raceSpells,
        ids.isSummon s = false) := by
  have hiff : summonPossible inBounds warded empt losP y1 x1 = true ↔
      ∃ y x : Int, distanceSpec y1 x1 y x ≤ 2 ∧ inBounds y x = true ∧
        warded y x = false ∧ empt y x = true ∧ losP y1 x1 y x = true := by
    constructor
    · intro h
      simp only [summonPossible, List.any_eq_true, Bool.and_eq_true,
        Bool.not_eq_true', decide_eq_true_eq] at h
      obtain ⟨dy, _, dx, _, ⟨⟨hb, hd⟩, hw⟩, he, hl⟩ := h
      exact ⟨y1 + dy, x1 + dx, hd, hb, hw, he, hl⟩
    · rintro ⟨y, x, hd, hb, hw, he, hl⟩
      simp only [summonPossible, List.any_eq_true, Bool.and_eq_true,
        Bool.not_eq_true', decide_eq_true_eq]
      have hy : -2 ≤ y - y1 ∧ y - y1 ≤ 2 := by
        have := le_max_left (y - y1).natAbs (x - x1).natAbs
        have h2 : (y - y1).natAbs ≤ 2 := le_trans this hd
        omega
      have hx : -2 ≤ x - x1 ∧ x - x1 ≤ 2 := by
        have := le_max_right (y - y1).natAbs (x - x1).natAbs
        have h2 : (x - x1).natAbs ≤ 2 := le_trans this hd
        omega
      refine ⟨y - y1, by
        have : y - y1 = -2 ∨ y - y1 = -1 ∨ y - y1 = 0 ∨ y - y1 = 1 ∨ y - y1 = 2 := by omega
        rcases this with h | h | h | h | h <;> simp [h],
        x - x1, by
        have : x - x1 = -2 ∨ x - x1 = -1 ∨ x - x1 = 0 ∨ x - x1 = 1 ∨ x - x1 = 2 := by omega
        rcases this with h | h | h | h | h <;> simp [h], ?_⟩
      have hyy : y1 + (y - y1) = y := by ring
      have hxx : x1 + (x - x1) = x := by ring
      rw [hyy, hxx]
      exact ⟨⟨⟨hb, hd⟩, hw⟩, he, hl⟩
  refine ⟨hiff, fun hno s hs => ?_⟩
  have hfalse : summonPossible inBounds warded empt losP y1 x1 = false := by
    rcases Bool.eq_false_or_eq_true (summonPossible inBounds warded empt losP y1 x1) with h | h
    · exact absurd (hiff.mp h) hno
    · exact h
  rw [hfalse] at hs
  simp only [spellPipeline, List.mem_filter, and_self, eq_self_iff_true,
    if_true, decide_eq_true_eq] at hs
  exact hs.2

/-- Claim C6, witness: on a cave where only the cell two steps north-east of
the monster is free, `summon_possible` answers true, and the claimed
existence statement is produced by the theorem. -/
theorem summon_possible_c6_wit :
    summonPossible (fun y x => decide (y = 2 ∧ x = 4))
        (fun _ _ => false) (fun y x => decide (y = 2 ∧ x = 4))
        (fun _ _ _ _ => true) 4 2 = true := by
  have h := summon_possible_c6 (fun y x => decide (y = 2 ∧ x = 4))
    (fun _ _ => false) (fun y x => decide (y = 2 ∧ x = 4))
    (fun _ _ _ _ => true) 4 2
    ⟨1, 2, 3, 4, fun _ => false, fun _ => false, fun _ => true⟩
    false 10 10 0 0 6 false 0 true false (fun l => l) 0 true []
  exact h.1.mpr ⟨2, 4, by decide, by decide, rfl, by decide, rfl⟩

/-!
## `adjust_dam_armor`, the SHATTER handler, and the blow loop
(melee2.c lines 1365-1368, 2027-2050, 2274-2522)
-/

/-- Embedding of `adjust_dam_armor` (melee2.c lines 1365-1368). -/
def adjustDamArmor (damage ac : Nat) : Nat :=
  damage - damage * (min ac 240) / 400

/-- Observable outcome of `melee_effect_handler_shatter`: the armour-adjusted
damage written back to the context and applied through `take_hit`, whether
`earthquake` was invoked, and the final `do_break` flag. -/
structure ShatterOutcome where
  damage : Nat
  tookHit : Nat
  quake : Bool
  doBreakOut : Bool
deriving DecidableEq

/-- Embedding of `melee_effect_handler_shatter` (melee2.c lines 2027-2050).
The `earthquake` service is external; `pBefore`/`pAfter` are the player's
position when the handler starts and after the earthquake returns. -/
def shatterHandler (damage ac : Nat) (pBefore pAfter : Int × Int) : ShatterOutcome :=
  let d := adjustDamArmor damage ac
  if 23 < d then
    { damage := d, tookHit := d, quake := true,
      doBreakOut := decide (pAfter ≠ pBefore) }
  else
    { damage := d, tookHit := d, quake := false, doBreakOut := false }

/-- One blow slot of a race (`m_ptr->race->blow[i]`). -/
structure Blow where
  method : Nat
  effect : Nat
  dDice : Nat
  dSide : Nat

/-- Per-blow oracle data for the blow loop of `make_attack_normal`: the
`check_hit` outcome, the protection-from-evil repel roll, the `damroll`
result, whether `p->leaving` was observed at the top of the iteration, and
the `do_break`/`blinked` flags produced by the dispatched effect handler. -/
structure BlowOracle where
  leavingNow : Bool
  hit : Bool
  repelRoll : Nat
  damage : Nat
  handlerBreak : Bool
  handlerBlink : Bool

/-- Outcome of the blow loop: the indices of the blows whose effect handler
was dispatched, and whether some handler requested a blink-away. -/
structure AttackOutcome where
  executed : List Nat
  blinked : Bool
deriving DecidableEq

/-- Embedding of the blow loop of `make_attack_normal` (melee2.c lines
2307-2502) from blow index `i` on: stop at an empty method or when the player
is leaving; a missed blow (nonzero effect, failed `check_hit`) and a repelled
blow (protection from evil, EVIL race, `p->lev >= rlev`,
`randint0(100) + p->lev > 50`) skip to the next blow; otherwise the effect
handler runs, and a handler-set `do_break` stops the loop before any later
blow. -/
def attackBlowsFrom (evil : Bool) (protevil plev rlev : Nat) :
    Nat → List (Blow × BlowOracle) → Bool → AttackOutcome
  | _, [], blinked => ⟨[], blinked⟩
  | i, (b, o) :: rest, blinked =>
    if b.method = 0 then ⟨[], blinked⟩
    else if o.leavingNow then ⟨[], blinked⟩
    else if b.effect ≠ 0 ∧ o.hit = false then
      attackBlowsFrom evil protevil plev rlev (i + 1) rest blinked
    else if 0 < protevil ∧ evil = true ∧ rlev ≤ plev ∧
        50 < o.repelRoll % 100 + plev then
      attackBlowsFrom evil protevil plev rlev (i + 1) rest blinked
    else
      let blinked2 := blinked || o.handlerBlink
      if o.handlerBreak then ⟨[i], blinked2⟩
      else
        let r := attackBlowsFrom evil protevil plev rlev (i + 1) rest blinked2
        ⟨i :: r.executed, r.blinked⟩

/-- Claim C5, counterexample.  The claim asserts that every SHATTER blow that
hits invokes the earthquake, in particular one whose rolled damage is 30.
The source only invokes `earthquake` when the armour-adjusted damage exceeds
23 (line 2039): with rolled damage 30 against total armour 94 the adjusted
damage is exactly 23 and no earthquake happens (and the armour-adjusted
damage is still applied). -/
theorem shatter_claim_cx :
    (shatterHandler 30 94 (0, 0) (0, 0)).quake = false ∧
      (shatterHandler 30 94 (0, 0) (0, 0)).tookHit = 23 := by
  constructor <;> decide

/-- Claim C5, amended.  For every SHATTER blow that hits: the damage is
reduced by the armour adjustment and applied; the radius-8 earthquake centred
on the attacker is invoked exactly when the armour-adjusted damage exceeds 23
(so it is invoked for rolled damage 30 whenever total armour is at most 93);
and when the earthquake displaced the player, `do_break` is set, which makes
the blow loop stop before any subsequent blow in the race's list fires. -/
theorem shatter_break_c5 (damage ac : Nat) (pBefore pAfter : Int × Int)
    (evil : Bool) (protevil plev rlev i : Nat) (b : Blow) (o : BlowOracle)
    (rest : List (Blow × BlowOracle)) (blinked : Bool)
    (hm : b.method ≠ 0) (hl : o.leavingNow = false) (hh : o.hit = true)
    (hrep : ¬ (0 < protevil ∧ evil = true ∧ rlev ≤ plev ∧
      50 < o.repelRoll % 100 + plev))
    (hbrk : o.handlerBreak = (shatterHandler damage ac pBefore pAfter).doBreakOut) :
    (shatterHandler damage ac pBefore pAfter).tookHit = adjustDamArmor damage ac ∧
    ((shatterHandler damage ac pBefore pAfter).quake = true ↔
      23 < adjustDamArmor damage ac) ∧
    (pAfter ≠ pBefore → 23 < adjustDamArmor damage ac →
      attackBlowsFrom evil protevil plev rlev i ((b, o) :: rest) blinked =
        ⟨[i], blinked || o.handlerBlink⟩) := by
  refine ⟨?_, ?_, fun hmoved hquake => ?_⟩
  · simp [shatterHandler]
    split <;> rfl
  · constructor
    · intro h
      by_contra hq
      simp [shatterHandler, hq] at h
    · intro h
      simp [shatterHandler, h]
  · have hq : (shatterHandler damage ac pBefore pAfter).doBreakOut = true := by
      simp [shatterHandler, hquake, hmoved]
    rw [attackBlowsFrom]
    rw [if_neg hm, if_neg (by simp [hl]), if_neg (by simp [hh]), if_neg hrep,
      if_pos (hbrk.trans hq)]

/-- Claim C5, witness: a two-blow race whose first blow is a SHATTER for 30
damage against armour 0; the earthquake fires, the player is displaced, and
only blow 0 executes — the second blow never fires. -/
theorem shatter_break_c5_wit :
    attackBlowsFrom false 0 10 10 0
      [(⟨1, 5, 5, 6⟩, ⟨false, true, 0, 30,
          (shatterHandler 30 0 (3, 3) (5, 5)).doBreakOut, false⟩),
        (⟨2, 6, 2, 3⟩, ⟨false, true, 0, 7, false, false⟩)] false =
      ⟨[0], false⟩ := by
  have h := shatter_break_c5 30 0 (3, 3) (5, 5) false 0 10 10 0
    ⟨1, 5, 5, 6⟩
    ⟨false, true, 0, 30, (shatterHandler 30 0 (3, 3) (5, 5)).doBreakOut, false⟩
    [(⟨2, 6, 2, 3⟩, ⟨false, true, 0, 7, false, false⟩)] false
    (by decide) rfl rfl (by simp) rfl
  exact h.2.2 (by decide) (by decide)

/-!
## `melee_effect_handler_eat_gold` (melee2.c lines 1666-1733)
-/

/-- Modelled from the spec: the `ORIGIN_STOLEN` origin tag (an enum value
defined outside `src/`) stamped on gold objects created by a theft. -/
def ORIGIN_STOLEN : Nat := 1

/-- A gold object created by the theft loop: its `pval[DEFAULT_PVAL]` amount
and its `origin` stamp. -/
structure GoldObj where
  pval : Nat
  origin : Nat
deriving DecidableEq

/-- The while-loop of `melee_effect_handler_eat_gold` (lines 1706-1725):
chunk the stolen gold into objects of at most `MAX_PVAL` each, every one
stamped `ORIGIN_STOLEN` and given to the monster. -/
def packGold (g : Nat) : List GoldObj :=
  if g = 0 then []
  else
    let amt := min g MAX_PVAL
    ⟨amt, ORIGIN_STOLEN⟩ :: packGold (g - amt)
termination_by g
decreasing_by
  have h1 : 1 ≤ min g MAX_PVAL := by
    have : 1 ≤ g := Nat.one_le_iff_ne_zero.mpr (by assumption)
    exact le_min this (by decide)
  omega

/-- The stolen amount computed at lines 1689-1692: a tenth of the purse plus
`randint1(25)`, at least 2, re-rolled against a twentieth of the purse plus
`randint1(3000)` when above 5000, and finally clamped to the purse. -/
def stealAmount (au r1 r2 : Int) : Int :=
  let g0 := au / 10 + r1
  let g1 := if g0 < 2 then 2 else g0
  let g2 := if 5000 < g1 then au / 20 + r2 else g1
  if au < g2 then au else g2

/-- Observable outcome of `melee_effect_handler_eat_gold`: the player's
purse, the blink flag, the gold objects given to the monster, and whether
the "Nothing was stolen" branch was taken. -/
structure EatGoldOutcome where
  au : Int
  blinked : Bool
  carried : List GoldObj
  nothingMsg : Bool
deriving DecidableEq

/-- Embedding of `melee_effect_handler_eat_gold` (lines 1666-1733).
`dexSave` is `adj_dex_safe[dex] + p->lev`, `saveRoll` the `randint0(100)`
draw, `blinkRoll` the `randint0(3)` draw of the occasional blink, `r1` and
`r2` the `randint1(25)` and `randint1(3000)` draws, and `blinked0` the
context's incoming blink flag. -/
def eatGold (au : Int) (paralyzed : Bool) (dexSave saveRoll blinkRoll : Nat)
    (r1 r2 : Int) (blinked0 : Bool) : EatGoldOutcome :=
  if paralyzed = false ∧ saveRoll % 100 < dexSave then
    { au := au, blinked := blinked0 || decide (blinkRoll % 3 ≠ 0),
      carried := [], nothingMsg := false }
  else
    let gold := stealAmount au r1 r2
    if gold ≤ 0 then
      { au := au - gold, blinked := blinked0, carried := [],
        nothingMsg := true }
    else
      { au := au - gold, blinked := true, carried := packGold gold.toNat,
        nothingMsg := false }

lemma packGold_sum (g : Nat) :
    ((packGold g).map GoldObj.pval).sum = g := by
  induction g using Nat.strong_induction_on with
  | _ g ih =>
    rw [packGold]
    by_cases h : g = 0
    · simp [h]
    · have h1 : 1 ≤ min g MAX_PVAL :=
        le_min (Nat.one_le_iff_ne_zero.mpr h) (by decide)
      have h2 : g - min g MAX_PVAL < g := by omega
      simp only [h, if_false, List.map_cons, List.sum_cons, ih _ h2]
      have : min g MAX_PVAL ≤ g := min_le_left _ _
      omega

lemma packGold_chunks (g : Nat) :
    ∀ o ∈ packGold g, o.pval ≤ MAX_PVAL ∧ o.origin = ORIGIN_STOLEN := by
  induction g using Nat.strong_induction_on with
  | _ g ih =>
    rw [packGold]
    by_cases h : g = 0
    · simp [h]
    · have h1 : 1 ≤ min g MAX_PVAL :=
        le_min (Nat.one_le_iff_ne_zero.mpr h) (by decide)
      have h2 : g - min g MAX_PVAL < g := by omega
      simp only [h, if_false, List.mem_cons]
      rintro o (rfl | ho)
      · exact ⟨min_le_right _ _, rfl⟩
      · exact ih _ h2 o ho

lemma stealAmount_range (au r1 r2 : Int) (hau : 0 ≤ au) (hr1 : 1 ≤ r1)
    (hr2 : 1 ≤ r2) : 0 ≤ stealAmount au r1 r2 ∧ stealAmount au r1 r2 ≤ au := by
  have h10 : 0 ≤ au / 10 := Int.ediv_nonneg hau (by decide)
  have h20 : 0 ≤ au / 20 := Int.ediv_nonneg hau (by decide)
  simp only [stealAmount]
  split_ifs <;> omega

/-- Claim C9: when the gold theft succeeds, the stolen amount is clamped to
the player's current gold, so the purse never becomes negative and decreases
by exactly the stolen amount; the entire stolen amount is packed, in chunks
of at most `MAX_PVAL`, into gold objects stamped `ORIGIN_STOLEN` and carried
by the monster; and `blinked` is set, so the attacker teleports away after
the blow loop. -/
theorem eat_gold_c9 (au : Int) (paralyzed : Bool)
    (dexSave saveRoll blinkRoll : Nat) (r1 r2 : Int) (blinked0 : Bool)
    (hau : 0 ≤ au) (hr1 : 1 ≤ r1) (hr2 : 1 ≤ r2)
    (hsave : ¬ (paralyzed = false ∧ saveRoll % 100 < dexSave))
    (hsome : ¬ stealAmount au r1 r2 ≤ 0) :
    (eatGold au paralyzed dexSave saveRoll blinkRoll r1 r2 blinked0).au =
        au - (((eatGold au paralyzed dexSave saveRoll blinkRoll r1 r2
          blinked0).carried.map GoldObj.pval).sum : Int) ∧
      0 ≤ (eatGold au paralyzed dexSave saveRoll blinkRoll r1 r2 blinked0).au ∧
      (eatGold au paralyzed dexSave saveRoll blinkRoll r1 r2 blinked0).blinked
        = true ∧
      ∀ o ∈ (eatGold au paralyzed dexSave saveRoll blinkRoll r1 r2
          blinked0).carried,
        o.pval ≤ MAX_PVAL ∧ o.origin = ORIGIN_STOLEN := by
  obtain ⟨hg0, hgau⟩ := stealAmount_range au r1 r2 hau hr1 hr2
  have hgpos : 0 < stealAmount au r1 r2 := by omega
  have hcast : ((stealAmount au r1 r2).toNat : Int) = stealAmount au r1 r2 :=
    Int.toNat_of_nonneg hg0
  simp only [eatGold]
  rw [if_neg hsave, if_neg hsome]
  refine ⟨?_, by dsimp only; omega, rfl, by dsimp only; exact packGold_chunks _⟩
  dsimp only
  rw [packGold_sum, hcast]

/-- Claim C9, witness: a failed dexterity save against a 1000-gold purse with
`randint1(25) = 7`: exactly 107 gold is stolen, packed into a single
`ORIGIN_STOLEN` object, the purse drops to 893, and the thief blinks away. -/
theorem eat_gold_c9_wit :
    (eatGold 1000 false 0 50 0 7 1 false).au =
        1000 - (((eatGold 1000 false 0 50 0 7 1 false).carried.map
          GoldObj.pval).sum : Int) ∧
      0 ≤ (eatGold 1000 false 0 50 0 7 1 false).au ∧
      (eatGold 1000 false 0 50 0 7 1 false).blinked = true ∧
      ∀ o ∈ (eatGold 1000 false 0 50 0 7 1 false).carried,
        o.pval ≤ MAX_PVAL ∧ o.origin = ORIGIN_STOLEN :=
  eat_gold_c9 1000 false 0 50 0 7 1 false (by decide) (by decide) (by decide)
    (by simp) (by decide)

/-!
## `melee_effect_handler_drain_charges` (melee2.c lines 1592-1661)
-/

/-- Modelled from the spec: inventory size constant `INVEN_PACK` (defined in
a header outside `src/`). -/
def INVEN_PACK : Nat := 23

/-- The slice of one inventory slot the drain-charges handler inspects:
whether the slot holds an object, whether it is a staff or wand, its
`pval[DEFAULT_PVAL]` charge count (`s16b`, hence `Int`), and its kind
level. -/
structure InvItem where
  kind : Bool
  drainable : Bool
  pval : Int
  klev : Nat
deriving DecidableEq

/-- Embedding of the ten-try loop of `melee_effect_handler_drain_charges`
(lines 1604-1660): each try picks a random slot; empty slots are skipped; a
charged staff or wand loses `rlev/(kind_level+2) + 1` charges, floored at 0,
and the monster heals `rlev * unpower` clamped to `maxhp - hp`, after which
the loop stops.  Returns the new inventory, the new monster hp, and the
drained slot, if any. -/
def drainChargesGo (rlev : Nat) (maxhp : Int) :
    List Nat → (Nat → InvItem) → Int → ((Nat → InvItem) × Int × Option Nat)
  | [], inv, hp => (inv, hp, none)
  | t :: rest, inv, hp =>
    let item := t % INVEN_PACK
    let o := inv item
    if o.kind = false then drainChargesGo rlev maxhp rest inv hp
    else if o.drainable = true ∧ o.pval ≠ 0 then
      let unpower : Int := (rlev : Int) / ((o.klev : Int) + 2) + 1
      let newcharge := max (o.pval - unpower) 0
      let inv2 := fun j => if j = item then
        { kind := o.kind, drainable := o.drainable, pval := newcharge,
          klev := o.klev } else inv j
      let heal := min ((rlev : Int) * unpower) (maxhp - hp)
      (inv2, hp + heal, some item)
    else drainChargesGo rlev maxhp rest inv hp

/-- Claim C10: the UN_POWER (drain-charges) blow handler preserves the
monster hp invariant — if `hp ≤ maxhp` before the call then afterwards as
well, because the heal of `rlev * unpower` is clamped to `maxhp - hp` — and
the drained wand or staff is never left with a negative charge count, while
every other slot is untouched. -/
theorem drain_charges_c10 (rlev : Nat) (maxhp hp : Int) (tries : List Nat)
    (inv : Nat → InvItem) (hhp : hp ≤ maxhp) :
    (drainChargesGo rlev maxhp tries inv hp).2.1 ≤ maxhp ∧
      (∀ s, (drainChargesGo rlev maxhp tries inv hp).2.2 = some s →
        0 ≤ ((drainChargesGo rlev maxhp tries inv hp).1 s).pval) ∧
      (∀ j, ((drainChargesGo rlev maxhp tries inv hp).2.2 = none ∨
          (drainChargesGo rlev maxhp tries inv hp).2.2 ≠ some j) →
        (drainChargesGo rlev maxhp tries inv hp).1 j = inv j) := by
  induction tries generalizing inv hp with
  | nil =>
    refine ⟨hhp, ?_, ?_⟩
    · intro s hs
      simp [drainChargesGo] at hs
    · intro j _
      rfl
  | cons t rest ih =>
    by_cases hk : (inv (t % INVEN_PACK)).kind = false
    · have he : drainChargesGo rlev maxhp (t :: rest) inv hp =
          drainChargesGo rlev maxhp rest inv hp := by
        simp only [drainChargesGo]
        rw [if_pos hk]
      rw [he]
      exact ih _ _ hhp
    · by_cases hd : (inv (t % INVEN_PACK)).drainable = true ∧
          (inv (t % INVEN_PACK)).pval ≠ 0
      · have he : drainChargesGo rlev maxhp (t :: rest) inv hp =
            (fun j => if j = t % INVEN_PACK then
                { kind := (inv (t % INVEN_PACK)).kind,
                  drainable := (inv (t % INVEN_PACK)).drainable,
                  pval := max ((inv (t % INVEN_PACK)).pval -
                    ((rlev : Int) / (((inv (t % INVEN_PACK)).klev : Int) + 2) + 1)) 0,
                  klev := (inv (t % INVEN_PACK)).klev } else inv j,
              hp + min ((rlev : Int) *
                ((rlev : Int) / (((inv (t % INVEN_PACK)).klev : Int) + 2) + 1))
                (maxhp - hp),
              some (t % INVEN_PACK)) := by
          simp only [drainChargesGo]
          rw [if_neg hk, if_pos hd]
        rw [he]
        refine ⟨?_, ?_, ?_⟩
        · have : min ((rlev : Int) *
              ((rlev : Int) / (((inv (t % INVEN_PACK)).klev : Int) + 2) + 1))
              (maxhp - hp) ≤ maxhp - hp := min_le_right _ _
          dsimp only
          omega
        · intro s hs
          dsimp only at hs ⊢
          have hseq : s = t % INVEN_PACK := by
            exact (Option.some_inj.mp hs).symm
          rw [if_pos hseq]
          exact le_max_right _ _
        · intro j hj
          dsimp only at hj ⊢
          rcases hj with hj | hj
          · exact absurd hj (by simp)
          · rw [if_neg (fun hc => hj (by rw [hc]))]
      · have he : drainChargesGo rlev maxhp (t :: rest) inv hp =
            drainChargesGo rlev maxhp rest inv hp := by
          simp only [drainChargesGo]
          rw [if_neg hk, if_neg hd]
        rw [he]
        exact ih _ _ hhp

/-- Claim C10, witness: a level-10 monster at 7/20 hp drains a wand holding 5
charges (kind level 3): the wand drops to 2 charges — not negative — and the
heal of 30 is clamped so the monster ends at exactly its 20 maximum. -/
theorem drain_charges_c10_wit :
    (drainChargesGo 10 20 [0] (fun _ => ⟨true, true, 5, 3⟩) 7).2.1 ≤ 20 ∧
      (∀ s, (drainChargesGo 10 20 [0] (fun _ => ⟨true, true, 5, 3⟩) 7).2.2 =
          some s →
        0 ≤ ((drainChargesGo 10 20 [0] (fun _ => ⟨true, true, 5, 3⟩) 7).1
          s).pval) ∧
      (∀ j, ((drainChargesGo 10 20 [0] (fun _ => ⟨true, true, 5, 3⟩) 7).2.2 =
            none ∨
          (drainChargesGo 10 20 [0] (fun _ => ⟨true, true, 5, 3⟩) 7).2.2 ≠
            some j) →
        (drainChargesGo 10 20 [0] (fun _ => ⟨true, true, 5, 3⟩) 7).1 j =
          (fun _ => (⟨true, true, 5, 3⟩ : InvItem)) j) :=
  drain_charges_c10 10 20 7 [0] (fun _ => ⟨true, true, 5, 3⟩) (by decide)

/-!
## The multiply attempt of `process_monster` (melee2.c lines 2686-2714)
-/

/-- Embedding of the neighbour count at lines 2692-2696: the loop runs `y`
from `oy-1` to `oy+1` and `x` from `ox-1` to `ox+1` and counts every cell
with `cave->m_idx[y][x] > 0` — including the monster's own cell. -/
def countAdj (mIdx : Int → Int → Int) (oy ox : Int) : Nat :=
  (if 0 < mIdx (oy - 1) (ox - 1) then 1 else 0) +
  (if 0 < mIdx (oy - 1) ox then 1 else 0) +
  (if 0 < mIdx (oy - 1) (ox + 1) then 1 else 0) +
  (if 0 < mIdx oy (ox - 1) then 1 else 0) +
  (if 0 < mIdx oy ox then 1 else 0) +
  (if 0 < mIdx oy (ox + 1) then 1 else 0) +
  (if 0 < mIdx (oy + 1) (ox - 1) then 1 else 0) +
  (if 0 < mIdx (oy + 1) ox then 1 else 0) +
  (if 0 < mIdx (oy + 1) (ox + 1) then 1 else 0)

/-- Embedding of the multiply gate at lines 2689-2713: below the `MAX_REPRO`
breeder cap, with `k` neighbours counted as above, an attempt happens when
`k < 4` and either `k == 0` or the `one_in_(k * MON_MULT_ADJ)` roll hits; the
turn is consumed (the function returns) when the race has MULTIPLY and
`multiply_monster` succeeded.  Returns (attempted, turn consumed). -/
def multiplyCheck (numRepro k multRoll : Nat) (hasMultiply spawnOk : Bool) :
    Bool × Bool :=
  if numRepro < MAX_REPRO then
    if k < 4 ∧ (k = 0 ∨ multRoll % (k * MON_MULT_ADJ) = 0) then
      (true, hasMultiply && spawnOk)
    else (false, false)
  else (false, false)

/-- Claim C3, counterexample.  The claim says an attempt is always made when
the monster has zero occupied 8-neighbours.  The source counts the full 3 by 3
block including the monster's own cell (lines 2693-2696), so a lone monster
has `k = 1`, and the attempt then requires the `one_in_(1 * MON_MULT_ADJ)`
roll: with roll 1, no attempt is made. -/
theorem multiply_claim_cx :
    countAdj (fun y x => if y = 5 ∧ x = 5 then 7 else 0) 5 5 = 1 ∧
      (multiplyCheck 0
        (countAdj (fun y x => if y = 5 ∧ x = 5 then 7 else 0) 5 5)
        1 true true).1 = false := by
  constructor <;> decide

/-- Claim C3, amended.  For a monster processed while the breeder count is
below `MAX_REPRO`, with `k` the number of occupied cells of the 3 by 3 block
centred on it (which includes the monster itself, so `k ≥ 1` and the claimed
`k == 0` case is unreachable): a multiplication attempt is made iff `k < 4`
and the `one_in_(k * MON_MULT_ADJ)` roll hits, which over the roll's uniform
range happens for exactly one outcome (probability `1/(k*MON_MULT_ADJ)`);
for `k ≥ 4` no attempt is ever made; and the monster's turn is consumed iff
an attempt was made, the race has MULTIPLY, and the spawn succeeded. -/
theorem multiply_gate_c3 (mIdx : Int → Int → Int) (oy ox : Int)
    (numRepro multRoll : Nat) (hasMultiply spawnOk : Bool)
    (hself : 0 < mIdx oy ox) (hrepro : numRepro < MAX_REPRO) :
    1 ≤ countAdj mIdx oy ox ∧
    ((multiplyCheck numRepro (countAdj mIdx oy ox) multRoll hasMultiply
        spawnOk).1 = true ↔
      countAdj mIdx oy ox < 4 ∧
        multRoll % (countAdj mIdx oy ox * MON_MULT_ADJ) = 0) ∧
    (countAdj mIdx oy ox < 4 →
      ((Finset.range (countAdj mIdx oy ox * MON_MULT_ADJ)).filter
        (fun r => (multiplyCheck numRepro (countAdj mIdx oy ox) r hasMultiply
          spawnOk).1 = true)).card = 1) ∧
    (4 ≤ countAdj mIdx oy ox →
      (multiplyCheck numRepro (countAdj mIdx oy ox) multRoll hasMultiply
        spawnOk).1 = false) ∧
    ((multiplyCheck numRepro (countAdj mIdx oy ox) multRoll hasMultiply
        spawnOk).2 = true ↔
      (multiplyCheck numRepro (countAdj mIdx oy ox) multRoll hasMultiply
        spawnOk).1 = true ∧ hasMultiply = true ∧ spawnOk = true) := by
  have hk : 1 ≤ countAdj mIdx oy ox := by
    unfold countAdj
    rw [if_pos hself]
    omega
  have hm : 0 < countAdj mIdx oy ox * MON_MULT_ADJ :=
    Nat.mul_pos hk (by decide)
  refine ⟨hk, ?_, ?_, ?_, ?_⟩
  · simp only [multiplyCheck, if_pos hrepro]
    constructor
    · intro h
      by_cases hc : countAdj mIdx oy ox < 4 ∧
          (countAdj mIdx oy ox = 0 ∨
            multRoll % (countAdj mIdx oy ox * MON_MULT_ADJ) = 0)
      · exact ⟨hc.1, hc.2.resolve_left (by omega)⟩
      · rw [if_neg hc] at h
        exact absurd h (by decide)
    · intro ⟨h1, h2⟩
      rw [if_pos ⟨h1, Or.inr h2⟩]
  · intro h4
    have hset : (Finset.range (countAdj mIdx oy ox * MON_MULT_ADJ)).filter
        (fun r => (multiplyCheck numRepro (countAdj mIdx oy ox) r hasMultiply
          spawnOk).1 = true) = {0} := by
      ext r
      simp only [Finset.mem_filter, Finset.mem_range, Finset.mem_singleton,
        multiplyCheck, if_pos hrepro]
      constructor
      · rintro ⟨hr, hatt⟩
        by_cases hc : countAdj mIdx oy ox < 4 ∧
            (countAdj mIdx oy ox = 0 ∨
              r % (countAdj mIdx oy ox * MON_MULT_ADJ) = 0)
        · have := hc.2.resolve_left (by omega)
          rwa [Nat.mod_eq_of_lt hr] at this
        · rw [if_neg hc] at hatt
          exact absurd hatt (by decide)
      · rintro rfl
        exact ⟨hm, by rw [if_pos ⟨h4, Or.inr (Nat.zero_mod _)⟩]⟩
    rw [hset]
    rfl
  · intro h4
    simp only [multiplyCheck, if_pos hrepro]
    rw [if_neg (by omega)]
  · simp only [multiplyCheck, if_pos hrepro]
    by_cases hc : countAdj mIdx oy ox < 4 ∧
        (countAdj mIdx oy ox = 0 ∨
          multRoll % (countAdj mIdx oy ox * MON_MULT_ADJ) = 0)
    · rw [if_pos hc]
      simp
    · rw [if_neg hc]
      simp

/-- Claim C3, witness: a lone breeder (`k = 1`) below the breeder cap whose
`one_in_(8)` roll hits and whose spawn succeeds: the attempt fires on exactly
one of the eight roll outcomes and the turn is consumed. -/
theorem multiply_gate_c3_wit :
    ((Finset.range (countAdj (fun y x => if y = 5 ∧ x = 5 then 7 else 0) 5 5 *
        MON_MULT_ADJ)).filter
      (fun r => (multiplyCheck 3
        (countAdj (fun y x => if y = 5 ∧ x = 5 then 7 else 0) 5 5)
        r true true).1 = true)).card = 1 :=
  (multiply_gate_c3 (fun y x => if y = 5 ∧ x = 5 then 7 else 0) 5 5 3 0
    true true (by decide) (by decide)).2.2.1 (by decide)

/-!
## `monster_can_flow` and `process_monsters` (melee2.c lines 3132-3212)

Each monster is reduced to the slice of fields the scheduler reads.  Monster
energy is declared in a header outside `src/` and is modelled from the spec
("energy integer accumulator") as an `Int`.  `process_monster` itself is
treated as opaque here: the scheduler's log records which indices it was
invoked on, and the claim's wake conditions refer to the monsters' pre-pass
field values.
-/

/-- The scheduler-visible slice of one monster: whether its race pointer is
non-null (alive), its energy, its cached distance and racial awareness
radius, its hit points, whether the player has line of sight to its cell,
and the flow stamp and cost of its cell. -/
structure SchedMon where
  alive : Bool
  energy : Int
  cdis : Nat
  aaf : Nat
  hp : Int
  maxhp : Int
  los : Bool
  flowWhen : Nat
  flowCost : Nat
deriving DecidableEq

/-- The effective awareness radius: halved under `OPT(birth_small_range)`. -/
def effAaf (smallRange : Bool) (aaf : Nat) : Nat :=
  if smallRange then aaf / 2 else aaf

/-- Embedding of `monster_can_flow` (melee2.c lines 3132-3145): the flow
stamp of the monster's cell equals the player's, and the cost is below both
`MONSTER_FLOW_DEPTH` and the effective awareness radius. -/
def monsterCanFlow (smallRange : Bool) (playerWhen : Nat) (m : SchedMon) : Bool :=
  m.flowWhen = playerWhen && m.flowCost < MONSTER_FLOW_DEPTH &&
    m.flowCost < effAaf smallRange m.aaf

/-- The four wake conditions of lines 3203-3206: sense (`cdis` within
effective `aaf`), hurt (`hp < maxhp`), sight, or flow. -/
def wakeCheck (smallRange : Bool) (playerWhen : Nat) (m : SchedMon) : Bool :=
  (m.cdis ≤ effAaf smallRange m.aaf) || (m.hp < m.maxhp) || m.los ||
    monsterCanFlow smallRange playerWhen m

/-- A monster after the `m_ptr->energy -= 100` of line 3192. -/
def drained (m : SchedMon) : SchedMon :=
  { m with energy := m.energy - 100 }

/-- Whether one pass of the scheduler hands a monster to `process_monster`:
alive, enough energy, and some wake condition (checked, as in the source,
after the energy subtraction — which no wake condition reads). -/
def shouldProcess (smallRange : Bool) (playerWhen minE : Nat)
    (m : SchedMon) : Bool :=
  m.alive && !(m.energy < (minE : Int)) &&
    wakeCheck smallRange playerWhen (drained m)

/-- Embedding of the `for (i = cave_monster_max(c) - 1; i >= 1; i--)` loop of
`process_monsters` (lines 3175-3211), from index `i` down to 1: skip dead
monsters and those below `minimum_energy`; otherwise subtract 100 energy and
invoke `process_monster` (recorded in the returned log) when a wake condition
holds.  `leaving` breaks the loop. -/
def processMonstersGo (leaving smallRange : Bool) (playerWhen minE : Nat) :
    Nat → (Nat → SchedMon) → ((Nat → SchedMon) × List Nat)
  | 0, cur => (cur, [])
  | i + 1, cur =>
    if leaving then (cur, [])
    else
      let m := cur (i + 1)
      if m.alive = false then
        processMonstersGo leaving smallRange playerWhen minE i cur
      else if m.energy < (minE : Int) then
        processMonstersGo leaving smallRange playerWhen minE i cur
      else
        let m2 := drained m
        let cur2 := fun j => if j = i + 1 then m2 else cur j
        if wakeCheck smallRange playerWhen m2 then
          let r := processMonstersGo leaving smallRange playerWhen minE i cur2
          (r.1, (i + 1) :: r.2)
        else
          processMonstersGo leaving smallRange playerWhen minE i cur2

/-- Embedding of `process_monsters(c, minimum_energy)`: run the loop from
`cave_monster_max(c) - 1`. -/
def processMonsters (leaving smallRange : Bool) (playerWhen minE mmax : Nat)
    (mons : Nat → SchedMon) : ((Nat → SchedMon) × List Nat) :=
  processMonstersGo leaving smallRange playerWhen minE (mmax - 1) mons

/-- The descending index list `[n, n-1, ..., 1]` the loop visits. -/
def descList : Nat → List Nat
  | 0 => []
  | n + 1 => (n + 1) :: descList n

lemma descList_mem (n : Nat) : ∀ j, j ∈ descList n ↔ 1 ≤ j ∧ j ≤ n := by
  induction n with
  | zero => intro j; simp [descList]; omega
  | succ n ih =>
    intro j
    simp [descList, ih]
    omega

lemma descList_nodup (n : Nat) : (descList n).Nodup := by
  induction n with
  | zero => simp [descList]
  | succ n ih =>
    simp only [descList, List.nodup_cons]
    exact ⟨fun h => by have := (descList_mem n _).mp h; omega, ih⟩

lemma descList_sorted (n : Nat) : (descList n).Pairwise (· > ·) := by
  induction n with
  | zero => simp [descList]
  | succ n ih =>
    simp only [descList, List.pairwise_cons]
    exact ⟨fun j hj => by have := (descList_mem n _).mp hj; omega, ih⟩

lemma processGo_spec (smallRange : Bool) (playerWhen minE : Nat)
    (mons : Nat → SchedMon) :
    ∀ (i : Nat) (cur : Nat → SchedMon),
      (∀ j, 1 ≤ j → j ≤ i → cur j = mons j) →
      ((processMonstersGo false smallRange playerWhen minE i cur).2 =
        (descList i).filter
          (fun j => shouldProcess smallRange playerWhen minE (mons j))) ∧
      (∀ j, (processMonstersGo false smallRange playerWhen minE i cur).1 j =
        if 1 ≤ j ∧ j ≤ i ∧ (mons j).alive = true ∧
            ¬ ((mons j).energy < (minE : Int)) then
          drained (mons j) else cur j) := by
  intro i
  induction i with
  | zero =>
    intro cur _
    refine ⟨rfl, fun j => ?_⟩
    rw [if_neg (by omega)]
    rfl
  | succ i ih =>
    intro cur hcur
    have hm : cur (i + 1) = mons (i + 1) := hcur (i + 1) (by omega) le_rfl
    by_cases ha : (mons (i + 1)).alive = false
    · have he : processMonstersGo false smallRange playerWhen minE (i + 1) cur =
          processMonstersGo false smallRange playerWhen minE i cur := by
        simp only [processMonstersGo, if_neg (by simp : ¬ false = true), hm,
          if_pos ha]
      obtain ⟨hlog, harr⟩ := ih cur (fun j h1 h2 => hcur j h1 (by omega))
      rw [he]
      refine ⟨?_, fun j => ?_⟩
      · rw [hlog, descList,
          List.filter_cons_of_neg (by simp [shouldProcess, ha])]
      · rw [harr j]
        by_cases h1 : 1 ≤ j ∧ j ≤ i ∧ (mons j).alive = true ∧
            ¬ ((mons j).energy < (minE : Int))
        · rw [if_pos h1, if_pos ⟨h1.1, by omega, h1.2.2.1, h1.2.2.2⟩]
        · rw [if_neg h1]
          by_cases h2 : 1 ≤ j ∧ j ≤ i + 1 ∧ (mons j).alive = true ∧
              ¬ ((mons j).energy < (minE : Int))
          · obtain ⟨hj1, hj2, hal, hen2⟩ := h2
            have hji : j = i + 1 := by
              by_contra hne
              exact h1 ⟨hj1, by omega, hal, hen2⟩
            subst hji
            rw [ha] at hal
            exact absurd hal (by decide)
          · rw [if_neg h2]
    · rw [Bool.not_eq_false] at ha
      by_cases hen : (mons (i + 1)).energy < (minE : Int)
      · have he : processMonstersGo false smallRange playerWhen minE (i + 1) cur =
            processMonstersGo false smallRange playerWhen minE i cur := by
          simp only [processMonstersGo, if_neg (by simp : ¬ false = true), hm]
          rw [if_neg (by rw [ha]; simp), if_pos hen]
        obtain ⟨hlog, harr⟩ := ih cur (fun j h1 h2 => hcur j h1 (by omega))
        rw [he]
        refine ⟨?_, fun j => ?_⟩
        · rw [hlog, descList,
            List.filter_cons_of_neg (by simp [shouldProcess, hen])]
        · rw [harr j]
          by_cases h1 : 1 ≤ j ∧ j ≤ i ∧ (mons j).alive = true ∧
              ¬ ((mons j).energy < (minE : Int))
          · rw [if_pos h1, if_pos ⟨h1.1, by omega, h1.2.2.1, h1.2.2.2⟩]
          · rw [if_neg h1]
            by_cases h2 : 1 ≤ j ∧ j ≤ i + 1 ∧ (mons j).alive = true ∧
                ¬ ((mons j).energy < (minE : Int))
            · obtain ⟨hj1, hj2, hal, hen2⟩ := h2
              have hji : j = i + 1 := by
                by_contra hne
                exact h1 ⟨hj1, by omega, hal, hen2⟩
              subst hji
              exact absurd hen hen2
            · rw [if_neg h2]
      · have hcur2 : ∀ j, 1 ≤ j → j ≤ i →
            (fun j => if j = i + 1 then drained (mons (i + 1)) else cur j) j =
              mons j := by
          intro j h1 h2
          simp only [if_neg (by omega : ¬ j = i + 1)]
          exact hcur j h1 (by omega)
        obtain ⟨hlog, harr⟩ := ih _ hcur2
        have harrj : ∀ j, (processMonstersGo false smallRange playerWhen minE i
            (fun j => if j = i + 1 then drained (mons (i + 1)) else cur j)).1 j =
            if 1 ≤ j ∧ j ≤ i ∧ (mons j).alive = true ∧
                ¬ ((mons j).energy < (minE : Int)) then
              drained (mons j)
            else if j = i + 1 then drained (mons (i + 1)) else cur j := harr
        have harr2 : ∀ j, (processMonstersGo false smallRange playerWhen minE i
            (fun j => if j = i + 1 then drained (mons (i + 1)) else cur j)).1 j =
            if 1 ≤ j ∧ j ≤ i + 1 ∧ (mons j).alive = true ∧
                ¬ ((mons j).energy < (minE : Int)) then
              drained (mons j) else cur j := by
          intro j
          rw [harrj j]
          by_cases h1 : 1 ≤ j ∧ j ≤ i ∧ (mons j).alive = true ∧
              ¬ ((mons j).energy < (minE : Int))
          · rw [if_pos h1, if_pos ⟨h1.1, by omega, h1.2.2.1, h1.2.2.2⟩]
          · rw [if_neg h1]
            by_cases hj2 : j = i + 1
            · subst hj2
              rw [if_pos rfl, if_pos ⟨by omega, le_rfl, ha, hen⟩]
            · rw [if_neg hj2]
              by_cases h2 : 1 ≤ j ∧ j ≤ i + 1 ∧ (mons j).alive = true ∧
                  ¬ ((mons j).energy < (minE : Int))
              · obtain ⟨hj1, hjle, hal, hen2⟩ := h2
                exact absurd ⟨hj1, by omega, hal, hen2⟩ h1
              · rw [if_neg h2]
        by_cases hw : wakeCheck smallRange playerWhen
            (drained (mons (i + 1))) = true
        · have he : processMonstersGo false smallRange playerWhen minE (i + 1)
              cur =
              ((processMonstersGo false smallRange playerWhen minE i
                (fun j => if j = i + 1 then drained (mons (i + 1)) else cur j)).1,
               (i + 1) :: (processMonstersGo false smallRange playerWhen minE i
                (fun j => if j = i + 1 then drained (mons (i + 1)) else
                  cur j)).2) := by
            simp only [processMonstersGo, if_neg (by simp : ¬ false = true), hm]
            rw [if_neg (by rw [ha]; simp), if_neg hen, if_pos hw]
          rw [he]
          refine ⟨?_, harr2⟩
          simp only [hlog, descList]
          rw [List.filter_cons_of_pos (by simp [shouldProcess, ha, hen, hw])]
        · have he : processMonstersGo false smallRange playerWhen minE (i + 1)
              cur =
              processMonstersGo false smallRange playerWhen minE i
                (fun j => if j = i + 1 then drained (mons (i + 1)) else
                  cur j) := by
            simp only [processMonstersGo, if_neg (by simp : ¬ false = true), hm]
            rw [if_neg (by rw [ha]; simp), if_neg hen, if_neg hw]
          rw [he]
          refine ⟨?_, harr2⟩
          rw [hlog, descList,
            List.filter_cons_of_neg (by simp [shouldProcess, hw])]

/-- Claim C8: in one `process_monsters(c, minimum_energy)` call with the
player not mid-transition, monsters are visited from the highest index down
to 1 (the log equals the descending index list filtered by the dispatch
condition, and is strictly decreasing); every live monster with
`energy ≥ minimum_energy` has exactly 100 subtracted from its energy and is
otherwise unchanged, while the rest are left untouched; and a monster is
handed to `process_monster` exactly once iff it is live, has enough energy,
and satisfies at least one of the four wake conditions. -/
theorem process_monsters_c8 (smallRange : Bool) (playerWhen minE mmax : Nat)
    (mons : Nat → SchedMon) :
    ((processMonsters false smallRange playerWhen minE mmax mons).2 =
      (descList (mmax - 1)).filter
        (fun j => shouldProcess smallRange playerWhen minE (mons j))) ∧
    ((processMonsters false smallRange playerWhen minE mmax mons).2.Pairwise
      (· > ·)) ∧
    (∀ j, 1 ≤ j → j ≤ mmax - 1 →
      (processMonsters false smallRange playerWhen minE mmax mons).1 j =
        if (mons j).alive = true ∧ ¬ ((mons j).energy < (minE : Int)) then
          drained (mons j) else mons j) ∧
    (∀ j, (processMonsters false smallRange playerWhen minE mmax mons).2.count
        j =
      if 1 ≤ j ∧ j ≤ mmax - 1 ∧
          shouldProcess smallRange playerWhen minE (mons j) = true then 1
      else 0) := by
  obtain ⟨hlog, harr⟩ := processGo_spec smallRange playerWhen minE mons
    (mmax - 1) mons (fun _ _ _ => rfl)
  have hlog2 : (processMonsters false smallRange playerWhen minE mmax mons).2 =
      (descList (mmax - 1)).filter
        (fun j => shouldProcess smallRange playerWhen minE (mons j)) := hlog
  refine ⟨hlog2, ?_, ?_, ?_⟩
  · rw [hlog2]
    exact (descList_sorted (mmax - 1)).filter _
  · intro j h1 h2
    show (processMonstersGo false smallRange playerWhen minE (mmax - 1)
      mons).1 j = _
    rw [harr j]
    by_cases hc : (mons j).alive = true ∧ ¬ ((mons j).energy < (minE : Int))
    · rw [if_pos ⟨h1, h2, hc.1, hc.2⟩, if_pos hc]
    · rw [if_neg hc, if_neg (fun h => hc ⟨h.2.2.1, h.2.2.2⟩)]
  · intro j
    rw [hlog2]
    by_cases hmem : j ∈ (descList (mmax - 1)).filter
        (fun j => shouldProcess smallRange playerWhen minE (mons j))
    · obtain ⟨hd, hp⟩ := List.mem_filter.mp hmem
      obtain ⟨hj1, hj2⟩ := (descList_mem _ _).mp hd
      rw [List.count_eq_one_of_mem ((descList_nodup _).filter _) hmem,
        if_pos ⟨hj1, hj2, hp⟩]
    · rw [List.count_eq_zero_of_not_mem hmem]
      rw [if_neg (fun h => hmem (List.mem_filter.mpr
        ⟨(descList_mem _ _).mpr ⟨h.1, h.2.1⟩, h.2.2⟩))]

/-- Claim C8, witness: a three-slot monster array (indices 1 and 2) where
monster 2 is awake with enough energy and monster 1 sleeps out of range:
only index 2 is processed, exactly once, and its energy drops from 120
to 20. -/
theorem process_monsters_c8_wit :
    ((processMonsters false false 4 100 3
        (fun j => if j = 2 then ⟨true, 120, 3, 20, 10, 10, false, 4, 2⟩
          else ⟨true, 120, 90, 20, 10, 10, false, 0, 99⟩)).1 2 =
      drained ((fun j => if j = 2 then
          (⟨true, 120, 3, 20, 10, 10, false, 4, 2⟩ : SchedMon)
        else ⟨true, 120, 90, 20, 10, 10, false, 0, 99⟩) 2)) ∧
    ((processMonsters false false 4 100 3
        (fun j => if j = 2 then ⟨true, 120, 3, 20, 10, 10, false, 4, 2⟩
          else ⟨true, 120, 90, 20, 10, 10, false, 0, 99⟩)).2.count 2 = 1) ∧
    ((processMonsters false false 4 100 3
        (fun j => if j = 2 then ⟨true, 120, 3, 20, 10, 10, false, 4, 2⟩
          else ⟨true, 120, 90, 20, 10, 10, false, 0, 99⟩)).2.count 1 = 0) := by
  have h := process_monsters_c8 false 4 100 3
    (fun j => if j = 2 then ⟨true, 120, 3, 20, 10, 10, false, 4, 2⟩
      else ⟨true, 120, 90, 20, 10, 10, false, 0, 99⟩)
  refine ⟨?_, ?_, ?_⟩
  · have := h.2.2.1 2 (by decide) (by decide)
    rw [this, if_pos (by constructor <;> decide)]
  · rw [h.2.2.2 2, if_pos ⟨by decide, by decide, by decide⟩]
  · rw [h.2.2.2 1, if_neg (fun hc => by
      have := hc.2.2
      rw [show shouldProcess false 4 100
        ((fun j => if j = 2 then
            (⟨true, 120, 3, 20, 10, 10, false, 4, 2⟩ : SchedMon)
          else ⟨true, 120, 90, 20, 10, 10, false, 0, 99⟩) 1) = false
        from by decide] at this
      exact absurd this (by decide))]

/-!
## The terrain/occupant step loop of `process_monster`
(melee2.c lines 2682-2684 and 2773-3107)

The cave probes (`square_ispassable`, `square_iswall`, `square_isperm`,
`square_iscloseddoor`, `square_issecretdoor`, `square_islockeddoor`,
`square_door_power`, `square_iswarded`, the `m_idx` occupancy map) are
bundled into a `Grid` of predicate functions; the mutators
(`square_destroy_wall`, `square_smash_door`, `square_open_door`,
`square_set_feat` on a locked door, `square_remove_ward`, `delete_monster`,
`monster_swap`) become point updates of that bundle.  `compare_monsters`
reads race data outside this loop and is passed as a predicate giving
whether the mover outranks the monster on a cell.  The per-iteration RNG
draws (`one_in_(2)` bash flip, `randint0(hp/10)` lock roll,
`randint1(BREAK_GLYPH)` glyph roll) are one oracle record per iteration,
and the resolved step direction (from `mm[i]` or the stagger roll) is one
offset per iteration.  The object pickup scan at lines 3011-3102 touches
only floor objects, never the occupancy map or the monster position, and is
not part of this state. -/

/-- Point update of a Boolean cell predicate. -/
def updB (f : Int × Int → Bool) (c : Int × Int) (v : Bool) :
    Int × Int → Bool :=
  fun x => if x = c then v else f x

/-- Point update of the occupancy map. -/
def updI (f : Int × Int → Int) (c : Int × Int) (v : Int) :
    Int × Int → Int :=
  fun x => if x = c then v else f x

/-- `monster_swap(oy, ox, ny, nx)` on the occupancy map. -/
def swapIdx (f : Int × Int → Int) (a b : Int × Int) : Int × Int → Int :=
  fun c => if c = a then f b else if c = b then f a else f c

/-- The cave probes the step loop reads, as cell predicates. -/
structure Grid where
  passable : Int × Int → Bool
  isWall : Int × Int → Bool
  isPerm : Int × Int → Bool
  closedDoor : Int × Int → Bool
  secretDoor : Int × Int → Bool
  lockedDoor : Int × Int → Bool
  doorPower : Int × Int → Nat
  warded : Int × Int → Bool
  mIdx : Int × Int → Int

/-- The race data the step loop reads. -/
structure MRace where
  level : Nat
  passWall : Bool
  killWall : Bool
  openDoor : Bool
  bashDoor : Bool
  neverBlow : Bool
  neverMove : Bool
  killBody : Bool
  moveBody : Bool

/-- The RNG draws one iteration of the step loop can consume. -/
structure StepRng where
  bashFlip : Nat
  lockRoll : Nat
  glyphRoll : Nat

/-- The mutable state one iteration works on: the grid, the monster's
position, the `do_turn` / `do_move` / `do_view` locals, and logs of the
`make_attack_normal`, `monster_swap` and `delete_monster` invocations. -/
structure StepState where
  grid : Grid
  monPos : Int × Int
  doTurn : Bool
  doMove : Bool
  doView : Bool
  attacked : Bool
  swaps : List ((Int × Int) × (Int × Int))
  killedPos : List (Int × Int)

/-- `square_destroy_wall` (KILL_WALL eating through, line 2815): the cell
becomes plain floor. -/
def destroyWall (g : Grid) (c : Int × Int) : Grid :=
  { g with
    passable := updB g.passable c true, isWall := updB g.isWall c false,
    closedDoor := updB g.closedDoor c false,
    secretDoor := updB g.secretDoor c false,
    lockedDoor := updB g.lockedDoor c false }

/-- `square_smash_door` (line 2863): the door is gone and the cell open. -/
def smashDoor (g : Grid) (c : Int × Int) : Grid :=
  { g with
    passable := updB g.passable c true,
    closedDoor := updB g.closedDoor c false,
    secretDoor := updB g.secretDoor c false,
    lockedDoor := updB g.lockedDoor c false }

/-- `square_open_door` (line 2871): the door stands open. -/
def openDoorG (g : Grid) (c : Int × Int) : Grid :=
  { g with
    passable := updB g.passable c true,
    closedDoor := updB g.closedDoor c false,
    secretDoor := updB g.secretDoor c false }

/-- `square_set_feat(c, feat - 1)` on a locked door (line 2856): one step of
lock power gone; at power 0 the door is merely closed. -/
def reduceLock (g : Grid) (c : Int × Int) : Grid :=
  { g with
    doorPower := fun x => if x = c then g.doorPower c - 1 else g.doorPower x,
    lockedDoor := updB g.lockedDoor c (decide (1 < g.doorPower c)) }

/-- Phase 1 of one iteration (lines 2781-2879): open floor allows the move;
a permanent wall does nothing; through other features PASS_WALL walks and
KILL_WALL eats; a closed or secret door consumes the turn and is unlocked,
opened or bashed according to the race's door flags and the rolls. -/
def phaseTerrain (race : MRace) (hp : Nat) (losB : Int × Int → Bool)
    (rng : StepRng) (st : StepState) (tgt : Int × Int) : StepState :=
  if st.grid.passable tgt then { st with doMove := true }
  else if st.grid.isWall tgt && st.grid.isPerm tgt then st
  else if race.passWall then { st with doMove := true }
  else if race.killWall then
    { st with
      doMove := true, grid := destroyWall st.grid tgt,
      doView := st.doView || losB tgt }
  else if st.grid.closedDoor tgt || st.grid.secretDoor tgt then
    let st1 := { st with doTurn := true }
    if race.openDoor || race.bashDoor then
      let mayBash := race.bashDoor && decide (rng.bashFlip % 2 = 0)
      if st.grid.lockedDoor tgt then
        let k := st.grid.doorPower tgt
        if (if hp / 10 = 0 then 0 else rng.lockRoll % (hp / 10)) > k then
          { st1 with grid := reduceLock st.grid tgt }
        else st1
      else
        if mayBash then
          { st1 with
            doMove := true, grid := smashDoor st.grid tgt,
            doView := st.doView || losB tgt }
        else
          { st1 with
            grid := openDoorG st.grid tgt,
            doView := st.doView || losB tgt }
    else st1
  else st

/-- Phase 2, the glyph of warding check (lines 2882-2902): an allowed move
onto a warded grid is blocked, unless the `randint1(BREAK_GLYPH)` draw is
below the race level, in which case the ward is removed and the move allowed
again. -/
def phaseGlyph (race : MRace) (rng : StepRng) (st : StepState)
    (tgt : Int × Int) : StepState :=
  if st.doMove && st.grid.warded tgt then
    if rng.glyphRoll % BREAK_GLYPH + 1 < race.level then
      { st with
        doMove := true,
        grid := { st.grid with warded := updB st.grid.warded tgt false } }
    else { st with doMove := false }
  else st

/-- Phase 3, the player in the way (lines 2906-2927): never step onto the
player; a NEVER_BLOW race does nothing, anyone else attacks and consumes the
turn. -/
def phasePlayer (race : MRace) (st : StepState) (tgt : Int × Int) :
    StepState :=
  if st.doMove && decide (st.grid.mIdx tgt < 0) then
    if race.neverBlow then { st with doMove := false }
    else { st with doMove := false, doTurn := true, attacked := true }
  else st

/-- Phase 4 (lines 2931-2938): NEVER_MOVE races stay put. -/
def phaseNeverMove (race : MRace) (st : StepState) : StepState :=
  if st.doMove && race.neverMove then { st with doMove := false } else st

/-- Phase 5, a monster in the way (lines 2942-2992): block, unless the mover
outranks it and can KILL_BODY (delete and step in) or MOVE_BODY from a
passable cell (swap). -/
def phaseOccupant (race : MRace) (compareWin : Int × Int → Bool)
    (st : StepState) (tgt : Int × Int) : StepState :=
  if st.doMove && decide (0 < st.grid.mIdx tgt) then
    let killOk := race.killBody
    let moveOk := race.moveBody && st.grid.passable st.monPos
    if compareWin tgt then
      if killOk || moveOk then
        if killOk then
          { st with
            doMove := true,
            grid := { st.grid with mIdx := updI st.grid.mIdx tgt 0 },
            killedPos := tgt :: st.killedPos }
        else { st with doMove := true }
      else { st with doMove := false }
    else { st with doMove := false }
  else st

/-- Phase 6, the allowed move (lines 2995-3005): consume the turn and
`monster_swap` the monster onto the target. -/
def phaseMove (st : StepState) (tgt : Int × Int) : StepState :=
  if st.doMove then
    { st with
      doTurn := true,
      grid := { st.grid with mIdx := swapIdx st.grid.mIdx st.monPos tgt },
      monPos := tgt, swaps := (st.monPos, tgt) :: st.swaps }
  else st

/-- One full iteration of the step loop on target cell `tgt`. -/
def stepBody (race : MRace) (hp : Nat) (compareWin : Int × Int → Bool)
    (losB : Int × Int → Bool) (rng : StepRng) (st : StepState)
    (tgt : Int × Int) : StepState :=
  phaseMove
    (phaseOccupant race compareWin
      (phaseNeverMove race
        (phasePlayer race
          (phaseGlyph race rng
            (phaseTerrain race hp losB rng st tgt) tgt) tgt))
      tgt) tgt

/-- The `for (i = 0; i < 5; i++)` loop (lines 2773-3107), iterating from
slot `i` with `n` tries left: each try targets the fixed origin plus that
slot's resolved direction offset (`mm[i]`, or the stagger draw) and stops
as soon as a try consumed the turn. -/
def stepLoopGo (race : MRace) (hp : Nat) (compareWin : Int × Int → Bool)
    (losB : Int × Int → Bool) (rngs : Nat → StepRng)
    (deltas : Nat → Int × Int) (origin : Int × Int) :
    Nat → Nat → StepState → StepState
  | _, 0, st => st
  | i, n + 1, st =>
    let tgt := (origin.1 + (deltas i).1, origin.2 + (deltas i).2)
    let st' := stepBody race hp compareWin losB (rngs i) st tgt
    if st'.doTurn then st'
    else stepLoopGo race hp compareWin losB rngs deltas origin (i + 1) n st'

/-- The whole step loop: five tries from slot 0, rooted at the monster's
position when the loop starts (`oy`, `ox` of lines 2682-2683). -/
def stepLoop (race : MRace) (hp : Nat) (compareWin : Int × Int → Bool)
    (losB : Int × Int → Bool) (rngs : Nat → StepRng)
    (deltas : Nat → Int × Int) (st : StepState) : StepState :=
  stepLoopGo race hp compareWin losB rngs deltas st.monPos 0 5 st

set_option maxHeartbeats 1000000 in
lemma phaseTerrain_inv (race : MRace) (hp : Nat) (losB : Int × Int → Bool)
    (rng : StepRng) (st : StepState) (tgt : Int × Int) :
    (phaseTerrain race hp losB rng st tgt).grid.mIdx = st.grid.mIdx ∧
      (phaseTerrain race hp losB rng st tgt).monPos = st.monPos ∧
      (phaseTerrain race hp losB rng st tgt).swaps = st.swaps := by
  simp only [phaseTerrain, destroyWall, smashDoor, openDoorG, reduceLock]
  split_ifs <;> exact ⟨rfl, rfl, rfl⟩

lemma phaseGlyph_inv (race : MRace) (rng : StepRng) (st : StepState)
    (tgt : Int × Int) :
    (phaseGlyph race rng st tgt).grid.mIdx = st.grid.mIdx ∧
      (phaseGlyph race rng st tgt).monPos = st.monPos ∧
      (phaseGlyph race rng st tgt).swaps = st.swaps := by
  simp only [phaseGlyph]
  split_ifs <;> exact ⟨rfl, rfl, rfl⟩

lemma phasePlayer_inv (race : MRace) (st : StepState) (tgt : Int × Int) :
    (phasePlayer race st tgt).grid = st.grid ∧
      (phasePlayer race st tgt).monPos = st.monPos ∧
      (phasePlayer race st tgt).swaps = st.swaps := by
  simp only [phasePlayer]
  split_ifs <;> exact ⟨rfl, rfl, rfl⟩

lemma phasePlayer_doMove (race : MRace) (st : StepState) (tgt : Int × Int)
    (h : (phasePlayer race st tgt).doMove = true) :
    0 ≤ st.grid.mIdx tgt := by
  by_contra hneg
  push_neg at hneg
  simp only [phasePlayer] at h
  by_cases hd : st.doMove = true
  · rw [if_pos (by simp [hd, hneg])] at h
    split_ifs at h
  · have hdf : st.doMove = false := by
      revert hd
      cases st.doMove <;> simp
    rw [if_neg (by simp [hdf])] at h
    exact hd h

lemma phaseNeverMove_inv (race : MRace) (st : StepState) :
    (phaseNeverMove race st).grid = st.grid ∧
      (phaseNeverMove race st).monPos = st.monPos ∧
      (phaseNeverMove race st).swaps = st.swaps ∧
      ((phaseNeverMove race st).doMove = true → st.doMove = true) := by
  simp only [phaseNeverMove]
  split_ifs <;> simp_all

lemma phaseOccupant_inv (race : MRace) (compareWin : Int × Int → Bool)
    (st : StepState) (tgt ppos : Int × Int)
    (hm : st.grid.mIdx ppos < 0)
    (hq : st.doMove = true → 0 ≤ st.grid.mIdx tgt) :
    (phaseOccupant race compareWin st tgt).grid.mIdx ppos =
        st.grid.mIdx ppos ∧
      (phaseOccupant race compareWin st tgt).monPos = st.monPos ∧
      (phaseOccupant race compareWin st tgt).swaps = st.swaps ∧
      ((phaseOccupant race compareWin st tgt).doMove = true →
        0 ≤ (phaseOccupant race compareWin st tgt).grid.mIdx tgt) := by
  by_cases hg : st.doMove = true ∧ 0 < st.grid.mIdx tgt
  · have htne : tgt ≠ ppos := fun h => by rw [h] at hg; omega
    have hguard : (st.doMove && decide (0 < st.grid.mIdx tgt)) = true := by
      simp [hg.1, hg.2]
    simp only [phaseOccupant]
    rw [if_pos hguard]
    by_cases hc2 : compareWin tgt = true
    · rw [if_pos hc2]
      by_cases hc3 : (race.killBody ||
          (race.moveBody && st.grid.passable st.monPos)) = true
      · rw [if_pos hc3]
        by_cases hc4 : race.killBody = true
        · rw [if_pos hc4]
          refine ⟨?_, rfl, rfl, fun _ => ?_⟩
          · show (if ppos = tgt then (0 : Int) else st.grid.mIdx ppos) =
              st.grid.mIdx ppos
            exact if_neg (fun h => htne h.symm)
          · show (0 : Int) ≤ if tgt = tgt then 0 else st.grid.mIdx tgt
            rw [if_pos rfl]
        · rw [if_neg hc4]
          refine ⟨rfl, rfl, rfl, fun _ => ?_⟩
          show (0 : Int) ≤ st.grid.mIdx tgt
          omega
      · rw [if_neg hc3]
        exact ⟨rfl, rfl, rfl,
          fun hd => Bool.noConfusion (show false = true from hd)⟩
    · rw [if_neg hc2]
      exact ⟨rfl, rfl, rfl,
        fun hd => Bool.noConfusion (show false = true from hd)⟩
  · have he : phaseOccupant race compareWin st tgt = st := by
      simp only [phaseOccupant]
      rw [if_neg (by
        intro hc
        rcases Bool.and_eq_true _ _ |>.mp hc with ⟨h1, h2⟩
        exact hg ⟨h1, by simpa using h2⟩)]
    rw [he]
    exact ⟨rfl, rfl, rfl, hq⟩

lemma stepBody_c7 (race : MRace) (hp : Nat)
    (compareWin losB : Int × Int → Bool) (rng : StepRng) (st : StepState)
    (tgt ppos : Int × Int)
    (hm : st.grid.mIdx ppos < 0) (hpos : st.monPos ≠ ppos) :
    (stepBody race hp compareWin losB rng st tgt).grid.mIdx ppos < 0 ∧
      (stepBody race hp compareWin losB rng st tgt).monPos ≠ ppos ∧
      ∀ s ∈ (stepBody race hp compareWin losB rng st tgt).swaps,
        s ∈ st.swaps ∨ s.2 ≠ ppos := by
  obtain ⟨t1m, t1p, t1s⟩ := phaseTerrain_inv race hp losB rng st tgt
  obtain ⟨g2m, g2p, g2s⟩ := phaseGlyph_inv race rng
    (phaseTerrain race hp losB rng st tgt) tgt
  obtain ⟨p3g, p3p, p3s⟩ := phasePlayer_inv race
    (phaseGlyph race rng (phaseTerrain race hp losB rng st tgt) tgt) tgt
  obtain ⟨n4g, n4p, n4s, n4d⟩ := phaseNeverMove_inv race
    (phasePlayer race
      (phaseGlyph race rng (phaseTerrain race hp losB rng st tgt) tgt) tgt)
  set st2 := phaseGlyph race rng (phaseTerrain race hp losB rng st tgt) tgt
    with hst2
  set st3 := phasePlayer race st2 tgt with hst3
  set st4 := phaseNeverMove race st3 with hst4
  have h4m : st4.grid.mIdx ppos < 0 := by
    rw [n4g, p3g, g2m, t1m]
    exact hm
  have h4q : st4.doMove = true → 0 ≤ st4.grid.mIdx tgt := by
    intro hd
    have h3d : st3.doMove = true := n4d hd
    have := phasePlayer_doMove race st2 tgt h3d
    rw [n4g, p3g]
    exact this
  obtain ⟨o5m, o5p, o5s, o5q⟩ := phaseOccupant_inv race compareWin st4 tgt
    ppos h4m h4q
  set st5 := phaseOccupant race compareWin st4 tgt with hst5
  have h5m : st5.grid.mIdx ppos < 0 := by rw [o5m]; exact h4m
  have h5p : st5.monPos ≠ ppos := by
    rw [o5p, n4p, p3p, g2p, t1p]
    exact hpos
  have hbody : stepBody race hp compareWin losB rng st tgt =
      phaseMove st5 tgt := rfl
  rw [hbody]
  by_cases hd : st5.doMove = true
  · have htgt : tgt ≠ ppos := by
      have := o5q hd
      intro h
      rw [h] at this
      omega
    simp only [phaseMove, if_pos hd]
    refine ⟨?_, by simpa using htgt, ?_⟩
    · simp only [swapIdx]
      rw [if_neg (fun h => h5p h.symm), if_neg (fun h => htgt h.symm)]
      exact h5m
    · intro s hs
      simp only [List.mem_cons] at hs
      rcases hs with rfl | hs
      · exact Or.inr htgt
      · rw [o5s, n4s, p3s, g2s, t1s] at hs
        exact Or.inl hs
  · simp only [phaseMove, if_neg hd]
    refine ⟨h5m, h5p, fun s hs => ?_⟩
    rw [o5s, n4s, p3s, g2s, t1s] at hs
    exact Or.inl hs

lemma stepLoopGo_c7 (race : MRace) (hp : Nat)
    (compareWin losB : Int × Int → Bool) (rngs : Nat → StepRng)
    (deltas : Nat → Int × Int) (origin ppos : Int × Int) :
    ∀ (n i : Nat) (st : StepState),
      st.grid.mIdx ppos < 0 → st.monPos ≠ ppos →
      (stepLoopGo race hp compareWin losB rngs deltas origin i n
          st).grid.mIdx ppos < 0 ∧
        (stepLoopGo race hp compareWin losB rngs deltas origin i n
          st).monPos ≠ ppos ∧
        ∀ s ∈ (stepLoopGo race hp compareWin losB rngs deltas origin i n
            st).swaps, s ∈ st.swaps ∨ s.2 ≠ ppos := by
  intro n
  induction n with
  | zero =>
    intro i st h1 h2
    exact ⟨h1, h2, fun s hs => Or.inl hs⟩
  | succ n ih =>
    intro i st h1 h2
    obtain ⟨b1, b2, b3⟩ := stepBody_c7 race hp compareWin losB (rngs i) st
      (origin.1 + (deltas i).1, origin.2 + (deltas i).2) ppos h1 h2
    simp only [stepLoopGo]
    by_cases hdt : (stepBody race hp compareWin losB (rngs i) st
        (origin.1 + (deltas i).1, origin.2 + (deltas i).2)).doTurn = true
    · rw [if_pos hdt]
      exact ⟨b1, b2, b3⟩
    · rw [if_neg hdt]
      obtain ⟨c1, c2, c3⟩ := ih (i + 1)
        (stepBody race hp compareWin losB (rngs i) st
          (origin.1 + (deltas i).1, origin.2 + (deltas i).2)) b1 b2
      refine ⟨c1, c2, fun s hs => ?_⟩
      rcases c3 s hs with hs2 | hs2
      · exact b3 s hs2
      · exact Or.inr hs2

/-- Claim C7: the step loop never puts a monster on the player's cell.
Whenever the candidate target cell holds the player (`m_idx < 0`), the
player-in-the-way phase clears `do_move` — a NEVER_BLOW race does nothing at
all, anyone else attacks through `make_attack_normal` and consumes the
turn — and consequently, over the whole five-try loop, `monster_swap` is
never invoked onto the player's cell, the monster's final position differs
from the player's, and the player's occupancy entry is intact. -/
theorem step_loop_c7 (race : MRace) (hp : Nat)
    (compareWin losB : Int × Int → Bool) (rngs : Nat → StepRng)
    (deltas : Nat → Int × Int) (st : StepState) (ppos : Int × Int)
    (hm : st.grid.mIdx ppos < 0) (hpos : st.monPos ≠ ppos) :
    ((stepLoop race hp compareWin losB rngs deltas st).monPos ≠ ppos ∧
      (stepLoop race hp compareWin losB rngs deltas st).grid.mIdx ppos < 0 ∧
      ∀ s ∈ (stepLoop race hp compareWin losB rngs deltas st).swaps,
        s ∈ st.swaps ∨ s.2 ≠ ppos) ∧
    (∀ (st2 : StepState) (tgt : Int × Int),
      st2.grid.mIdx tgt < 0 → st2.doMove = true →
      (phasePlayer race st2 tgt).doMove = false ∧
        (race.neverBlow = true →
          phasePlayer race st2 tgt = { st2 with doMove := false }) ∧
        (race.neverBlow = false →
          (phasePlayer race st2 tgt).attacked = true ∧
            (phasePlayer race st2 tgt).doTurn = true)) := by
  obtain ⟨l1, l2, l3⟩ := stepLoopGo_c7 race hp compareWin losB rngs deltas
    st.monPos ppos 5 0 st hm hpos
  refine ⟨⟨l2, l1, l3⟩, fun st2 tgt hneg hdm => ?_⟩
  have hguard : (st2.doMove && decide (st2.grid.mIdx tgt < 0)) = true := by
    simp [hdm, hneg]
  simp only [phasePlayer]
  rw [if_pos hguard]
  by_cases hnb : race.neverBlow = true
  · rw [if_pos hnb]
    exact ⟨rfl, fun _ => rfl, fun h => absurd hnb (by simp [h])⟩
  · rw [if_neg hnb]
    exact ⟨rfl, fun h => absurd h hnb, fun _ => ⟨rfl, rfl⟩⟩

/-- Claim C7, witness: a five-try loop for a plain race standing next to the
player on an open floor, every try aimed at the player's cell: the monster
ends the loop off the player's cell. -/
theorem step_loop_c7_wit :
    (stepLoop ⟨5, false, false, false, false, false, false, false, false⟩ 10
      (fun _ => false) (fun _ => false) (fun _ => ⟨0, 0, 0⟩)
      (fun _ => (-1, -1))
      ⟨⟨fun _ => true, fun _ => false, fun _ => false, fun _ => false,
        fun _ => false, fun _ => false, fun _ => 0, fun _ => false,
        fun c => if c = ((1 : Int), (1 : Int)) then -1
          else if c = ((2 : Int), (2 : Int)) then 2 else 0⟩,
        (2, 2), false, false, false, false, [], []⟩).monPos ≠ (1, 1) :=
  ((step_loop_c7 ⟨5, false, false, false, false, false, false, false, false⟩
    10 (fun _ => false) (fun _ => false) (fun _ => ⟨0, 0, 0⟩)
    (fun _ => (-1, -1))
    ⟨⟨fun _ => true, fun _ => false, fun _ => false, fun _ => false,
      fun _ => false, fun _ => false, fun _ => 0, fun _ => false,
      fun c => if c = ((1 : Int), (1 : Int)) then -1
        else if c = ((2 : Int), (2 : Int)) then 2 else 0⟩,
      (2, 2), false, false, false, false, [], []⟩ (1, 1)
    (by decide) (by decide)).1).1

lemma phaseMove_pos (st : StepState) (tgt : Int × Int)
    (h : st.doMove = true) :
    phaseMove st tgt =
      { st with
        doTurn := true,
        grid := { st.grid with mIdx := swapIdx st.grid.mIdx st.monPos tgt },
        monPos := tgt, swaps := (st.monPos, tgt) :: st.swaps } := by
  simp only [phaseMove]
  rw [if_pos h]

lemma phaseMove_neg (st : StepState) (tgt : Int × Int)
    (h : st.doMove = false) :
    phaseMove st tgt = st := by
  simp only [phaseMove]
  rw [if_neg (by simp [h])]

/-- Claim C2, amended.  For an otherwise-allowed move (open floor target, no
occupant, no NEVER_MOVE) onto a grid bearing a glyph of warding: the move is
blocked, except that when the `randint1(BREAK_GLYPH)` draw is strictly below
`race.level` the glyph is broken (removed from the grid) and the move
proceeds; over the draw's uniform range this happens for exactly
`race.level - 1` of the `BREAK_GLYPH` outcomes — probability
`(race.level - 1) / BREAK_GLYPH`, not the claimed
`race.level / BREAK_GLYPH`. -/
theorem glyph_c2 (race : MRace) (hp : Nat)
    (compareWin losB : Int × Int → Bool) (rng : StepRng) (st : StepState)
    (tgt : Int × Int)
    (hpass : st.grid.passable tgt = true)
    (hward : st.grid.warded tgt = true)
    (hmidx : st.grid.mIdx tgt = 0)
    (hnm : race.neverMove = false)
    (hne : st.monPos ≠ tgt)
    (hlev : race.level ≤ BREAK_GLYPH + 1) :
    ((stepBody race hp compareWin losB rng st tgt).monPos =
      if rng.glyphRoll % BREAK_GLYPH + 1 < race.level then tgt
      else st.monPos) ∧
    ((stepBody race hp compareWin losB rng st tgt).grid.warded tgt =
      if rng.glyphRoll % BREAK_GLYPH + 1 < race.level then false
      else true) ∧
    ((Finset.range BREAK_GLYPH).filter (fun r =>
      (stepBody race hp compareWin losB ⟨rng.bashFlip, rng.lockRoll, r⟩ st
        tgt).monPos = tgt)).card = race.level - 1 := by
  have main : ∀ rg : StepRng,
      ((stepBody race hp compareWin losB rg st tgt).monPos =
        if rg.glyphRoll % BREAK_GLYPH + 1 < race.level then tgt
        else st.monPos) ∧
      ((stepBody race hp compareWin losB rg st tgt).grid.warded tgt =
        if rg.glyphRoll % BREAK_GLYPH + 1 < race.level then false
        else true) := by
    intro rg
    have e1 : phaseTerrain race hp losB rg st tgt =
        { st with doMove := true } := by
      simp only [phaseTerrain]
      rw [if_pos hpass]
    by_cases hroll : rg.glyphRoll % BREAK_GLYPH + 1 < race.level
    · have e2 : phaseGlyph race rg { st with doMove := true } tgt =
          { st with
            doMove := true,
            grid := { st.grid with
              warded := updB st.grid.warded tgt false } } := by
        simp only [phaseGlyph]
        rw [if_pos (by simp [hward]), if_pos hroll]
      have e3 : phasePlayer race
          { st with
            doMove := true,
            grid := { st.grid with
              warded := updB st.grid.warded tgt false } } tgt =
          { st with
            doMove := true,
            grid := { st.grid with
              warded := updB st.grid.warded tgt false } } := by
        simp only [phasePlayer]
        rw [if_neg (by simp [hmidx])]
      have e4 : phaseNeverMove race
          { st with
            doMove := true,
            grid := { st.grid with
              warded := updB st.grid.warded tgt false } } =
          { st with
            doMove := true,
            grid := { st.grid with
              warded := updB st.grid.warded tgt false } } := by
        simp only [phaseNeverMove]
        rw [if_neg (by simp [hnm])]
      have e5 : phaseOccupant race compareWin
          { st with
            doMove := true,
            grid := { st.grid with
              warded := updB st.grid.warded tgt false } } tgt =
          { st with
            doMove := true,
            grid := { st.grid with
              warded := updB st.grid.warded tgt false } } := by
        simp only [phaseOccupant]
        rw [if_neg (by simp [hmidx])]
      show ((phaseMove (phaseOccupant race compareWin
        (phaseNeverMove race (phasePlayer race (phaseGlyph race rg
          (phaseTerrain race hp losB rg st tgt) tgt) tgt))
        tgt) tgt).monPos = _) ∧
        ((phaseMove (phaseOccupant race compareWin
        (phaseNeverMove race (phasePlayer race (phaseGlyph race rg
          (phaseTerrain race hp losB rg st tgt) tgt) tgt))
        tgt) tgt).grid.warded tgt = _)
      rw [e1, e2, e3, e4, e5, phaseMove_pos _ tgt rfl]
      constructor
      · rw [if_pos hroll]
      · rw [if_pos hroll]
        show updB st.grid.warded tgt false tgt = false
        simp [updB]
    · have e2 : phaseGlyph race rg { st with doMove := true } tgt =
          { st with doMove := false } := by
        simp only [phaseGlyph]
        rw [if_pos (by simp [hward]), if_neg hroll]
      have e3 : phasePlayer race { st with doMove := false } tgt =
          { st with doMove := false } := by
        simp only [phasePlayer]
        rw [if_neg (by simp)]
      have e4 : phaseNeverMove race { st with doMove := false } =
          { st with doMove := false } := by
        simp only [phaseNeverMove]
        rw [if_neg (by simp)]
      have e5 : phaseOccupant race compareWin { st with doMove := false }
          tgt = { st with doMove := false } := by
        simp only [phaseOccupant]
        rw [if_neg (by simp)]
      show ((phaseMove (phaseOccupant race compareWin
        (phaseNeverMove race (phasePlayer race (phaseGlyph race rg
          (phaseTerrain race hp losB rg st tgt) tgt) tgt))
        tgt) tgt).monPos = _) ∧
        ((phaseMove (phaseOccupant race compareWin
        (phaseNeverMove race (phasePlayer race (phaseGlyph race rg
          (phaseTerrain race hp losB rg st tgt) tgt) tgt))
        tgt) tgt).grid.warded tgt = _)
      rw [e1, e2, e3, e4, e5, phaseMove_neg _ tgt rfl]
      exact ⟨by rw [if_neg hroll], by rw [if_neg hroll]; exact hward⟩
  refine ⟨(main rng).1, (main rng).2, ?_⟩
  have hfe : (Finset.range BREAK_GLYPH).filter (fun r =>
      (stepBody race hp compareWin losB ⟨rng.bashFlip, rng.lockRoll, r⟩ st
        tgt).monPos = tgt) =
      (Finset.range BREAK_GLYPH).filter (fun r => r + 1 < race.level) := by
    apply Finset.filter_congr
    intro r hr
    have hrlt : r < BREAK_GLYPH := Finset.mem_range.mp hr
    have := (main ⟨rng.bashFlip, rng.lockRoll, r⟩).1
    simp only at this
    rw [Nat.mod_eq_of_lt hrlt] at this
    rw [this]
    by_cases hc : r + 1 < race.level
    · simp [hc]
    · simp [hc, hne]
  rw [hfe]
  have : (Finset.range BREAK_GLYPH).filter (fun r => r + 1 < race.level) =
      Finset.range (race.level - 1) := by
    ext r
    simp only [Finset.mem_filter, Finset.mem_range]
    constructor
    · rintro ⟨_, h2⟩
      omega
    · intro h
      omega
  rw [this, Finset.card_range]

/-- Claim C2, counterexample.  The claim gives the glyph-break probability as
`race.level / BREAK_GLYPH`, which for a level-1 monster predicts one breaking
outcome among the `BREAK_GLYPH` draws.  The source rolls
`randint1(BREAK_GLYPH) < race.level` (line 2888), so a level-1 monster can
never break a glyph: over all 550 draws of an otherwise-allowed move onto a
warded floor cell, the monster never moves. -/
theorem glyph_claim_cx :
    ((Finset.range BREAK_GLYPH).filter (fun r =>
      (stepBody ⟨1, false, false, false, false, false, false, false, false⟩
        10 (fun _ => false) (fun _ => false) ⟨0, 0, r⟩
        ⟨⟨fun _ => true, fun _ => false, fun _ => false, fun _ => false,
          fun _ => false, fun _ => false, fun _ => 0,
          fun c => decide (c = ((2 : Int), (2 : Int))),
          fun c => if c = ((1 : Int), (1 : Int)) then 5 else 0⟩,
          (1, 1), false, false, false, false, [], []⟩
        (2, 2)).monPos = (2, 2))).card = 0 ∧
    ((Finset.range BREAK_GLYPH).filter (fun r =>
      (stepBody ⟨1, false, false, false, false, false, false, false, false⟩
        10 (fun _ => false) (fun _ => false) ⟨0, 0, r⟩
        ⟨⟨fun _ => true, fun _ => false, fun _ => false, fun _ => false,
          fun _ => false, fun _ => false, fun _ => 0,
          fun c => decide (c = ((2 : Int), (2 : Int))),
          fun c => if c = ((1 : Int), (1 : Int)) then 5 else 0⟩,
          (1, 1), false, false, false, false, [], []⟩
        (2, 2)).monPos = (2, 2))).card ≠ 1 := by
  constructor
  · set_option maxRecDepth 4000 in decide
  · set_option maxRecDepth 4000 in decide

/-- Claim C2, witness: a level-30 monster attempting to step onto a warded
open floor cell: the glyph blocks the move except on the 29 breaking draws
out of 550, and on the given draw (549, the largest) the monster stays put
with the glyph intact. -/
theorem glyph_c2_wit :
    ((stepBody ⟨30, false, false, false, false, false, false, false, false⟩
        10 (fun _ => false) (fun _ => false) ⟨0, 0, 549⟩
        ⟨⟨fun _ => true, fun _ => false, fun _ => false, fun _ => false,
          fun _ => false, fun _ => false, fun _ => 0,
          fun c => decide (c = ((2 : Int), (2 : Int))),
          fun c => if c = ((1 : Int), (1 : Int)) then 5 else 0⟩,
          (1, 1), false, false, false, false, [], []⟩
        (2, 2)).monPos =
      if 549 % BREAK_GLYPH + 1 < 30 then ((2 : Int), (2 : Int))
      else (1, 1)) ∧
    ((stepBody ⟨30, false, false, false, false, false, false, false, false⟩
        10 (fun _ => false) (fun _ => false) ⟨0, 0, 549⟩
        ⟨⟨fun _ => true, fun _ => false, fun _ => false, fun _ => false,
          fun _ => false, fun _ => false, fun _ => 0,
          fun c => decide (c = ((2 : Int), (2 : Int))),
          fun c => if c = ((1 : Int), (1 : Int)) then 5 else 0⟩,
          (1, 1), false, false, false, false, [], []⟩
        (2, 2)).grid.warded (2, 2) =
      if 549 % BREAK_GLYPH + 1 < 30 then false else true) ∧
    ((Finset.range BREAK_GLYPH).filter (fun r =>
      (stepBody ⟨30, false, false, false, false, false, false, false, false⟩
        10 (fun _ => false) (fun _ => false) ⟨0, 0, r⟩
        ⟨⟨fun _ => true, fun _ => false, fun _ => false, fun _ => false,
          fun _ => false, fun _ => false, fun _ => 0,
          fun c => decide (c = ((2 : Int), (2 : Int))),
          fun c => if c = ((1 : Int), (1 : Int)) then 5 else 0⟩,
          (1, 1), false, false, false, false, [], []⟩
        (2, 2)).monPos = (2, 2))).card = 30 - 1 :=
  glyph_c2 ⟨30, false, false, false, false, false, false, false, false⟩ 10
    (fun _ => false) (fun _ => false) ⟨0, 0, 549⟩
    ⟨⟨fun _ => true, fun _ => false, fun _ => false, fun _ => false,
      fun _ => false, fun _ => false, fun _ => 0,
      fun c => decide (c = ((2 : Int), (2 : Int))),
      fun c => if c = ((1 : Int), (1 : Int)) then 5 else 0⟩,
      (1, 1), false, false, false, false, [], []⟩
    (2, 2) (by decide) (by decide) (by decide) (by decide) (by decide)
    (by decide)

end Melee2
